import Mathlib

/-!
Verification development for the Psychometric Duel engine and its
AlphaZero-style training loop (files pythonport.py, train_alphazero.py).

The engine state is a Python dict with value semantics (every transition
deep-clones the input); we embed it as an immutable Lean structure.
Machine integers (lp, n, baseN, atk, experienceTokens, pendingDiscard)
are embedded as Int, matching Python's unbounded int.  Python floats are
idealized as Real; the float expression x ** 0.5 is embedded as
Real.sqrt (its arguments are nonnegative at every call site), and
Python's built-in round (banker's rounding, half to even) is embedded as
pyRound below.

The players dict is keyed "1"/"2" and currentPlayer only ever takes the
values 1 and 2, embedded as the two-element type Pl.  The mulligan
sub-dict of the initial state is constant and never read or written by
any code in the repository, so it is omitted from the structure.

Where the source would raise an exception on indices that are out of
range (list indexing in next_state), the embedding returns the state
unchanged; such calls are unreachable for actions drawn from
legal_actions, and no theorem below depends on the behaviour at them.
Each spot is marked with a comment.
-/

namespace PsyDuel

/-- Construct category: the "type" field of a construct / item card. -/
inductive Category where
  | predictor
  | outcome
deriving DecidableEq, Repr

/-- The eight construct ids (keys of CONSTRUCTS). -/
inductive CId where
  | cog_ability
  | conscient
  | struct_int
  | work_sample
  | job_perf
  | turnover
  | job_sat
  | ocb
deriving DecidableEq, Repr

/-- The thirteen spell card ids (the non-construct keys of COUNTS). -/
inductive SpellId where
  | sample_size
  | job_relevance
  | imputation
  | missing_data
  | range_restrict
  | item_leakage
  | correction
  | p_hacking
  | practice_effect
  | bootstrapping
  | item_analysis
  | construct_drift
  | criterion_contam
deriving DecidableEq, Repr

/-- Game status: "active" or "finished". -/
inductive Status where
  | active
  | finished
deriving DecidableEq, Repr

/-- A player id: the engine only ever uses 1 and 2. -/
inductive Pl where
  | P1
  | P2
deriving DecidableEq, Repr

/-- oppid = "2" if pid == "1" else "1". -/
def Pl.other : Pl → Pl
  | .P1 => .P2
  | .P2 => .P1

/-- target_owner of a play_spell action: "me" or "opp". -/
inductive Owner where
  | me
  | opp
deriving DecidableEq, Repr

/-- target_type of a play_spell action: "monster" or "construct". -/
inductive TType where
  | monster
  | construct
deriving DecidableEq, Repr

/-- Attack target: target_type "lp" (target_slot null) or "monster" with a slot. -/
inductive ATarget where
  | lp
  | monster (target_slot : ℕ)
deriving DecidableEq, Repr

/-- Action descriptors.  Distinct descriptors have distinct canonical
sorted-key JSON encodings, so this inductive type is in bijection with the
canonical JSON keys used by ActionSpace; the summon replacement variant
carries the optional replace_monster_slot key as an Option. -/
inductive Action where
  | place_card (hand_index slot : ℕ)
  | discard_card (hand_index : ℕ)
  | experience_draw
  | summon (pred_slot out_slot : ℕ) (replace_monster_slot : Option ℕ)
  | play_spell (hand_index : ℕ) (target_owner : Owner) (target_type : TType) (target_slot : ℕ)
  | attack (attacker_slot : ℕ) (target : ATarget)
  | meta
  | end_turn
deriving DecidableEq, Repr

/-- A card: an item card (isItem True) or a spell card (isItem False).
Item fields mirror makeItemCard: constructId, type, construct (name),
short, avgR. -/
inductive Card where
  | item (constructId : CId) (cat : Category) (name short : String) (avgR : ℝ)
  | spell (id : SpellId)

/-- card.get("isItem"). -/
def Card.isItem : Card → Bool
  | .item .. => true
  | .spell _ => false

/-- The constructId of an item card (absent on spell cards). -/
def Card.constructId? : Card → Option CId
  | .item cid _ _ _ _ => some cid
  | .spell _ => none

/-- Row of the CONSTRUCTS table. -/
structure ConstructInfo where
  name : String
  cat : Category
  short : String
  avgR : ℝ

/-- The CONSTRUCTS table. -/
def CONSTRUCTS : CId → ConstructInfo
  | .cog_ability => ⟨"Cognitive Ability", .predictor, "COG", 0.65⟩
  | .conscient => ⟨"Conscientiousness", .predictor, "CON", 0.45⟩
  | .struct_int => ⟨"Struct. Interview", .predictor, "INT", 0.55⟩
  | .work_sample => ⟨"Work Sample", .predictor, "WST", 0.50⟩
  | .job_perf => ⟨"Job Performance", .outcome, "PERF", 0.52⟩
  | .turnover => ⟨"Turnover", .outcome, "TURN", 0.40⟩
  | .job_sat => ⟨"Job Satisfaction", .outcome, "SAT", 0.48⟩
  | .ocb => ⟨"OCB", .outcome, "OCB", 0.44⟩

/-- TRUE_VALIDITY.get(pred, default dict).get(out, 0.1): the nested dict
lookup with default 0.1 for every pair outside the 4 x 4 table. -/
def TRUE_VALIDITY : CId → CId → ℝ
  | .cog_ability, .job_perf => 0.51
  | .cog_ability, .turnover => 0.20
  | .cog_ability, .job_sat => 0.15
  | .cog_ability, .ocb => 0.12
  | .conscient, .job_perf => 0.31
  | .conscient, .turnover => 0.26
  | .conscient, .job_sat => 0.25
  | .conscient, .ocb => 0.30
  | .struct_int, .job_perf => 0.51
  | .struct_int, .turnover => 0.22
  | .struct_int, .job_sat => 0.18
  | .struct_int, .ocb => 0.15
  | .work_sample, .job_perf => 0.54
  | .work_sample, .turnover => 0.15
  | .work_sample, .job_sat => 0.12
  | .work_sample, .ocb => 0.10
  | _, _ => 0.1

/-- ADVERSE_IMPACT_BWD nested lookup with default 0.3. -/
def ADVERSE_IMPACT_BWD : CId → CId → ℝ
  | .cog_ability, .job_perf => 0.95
  | .cog_ability, .turnover => 0.60
  | .cog_ability, .job_sat => 0.58
  | .cog_ability, .ocb => 0.55
  | .conscient, .job_perf => 0.20
  | .conscient, .turnover => 0.05
  | .conscient, .job_sat => 0.05
  | .conscient, .ocb => 0.05
  | .struct_int, .job_perf => 0.35
  | .struct_int, .turnover => 0.22
  | .struct_int, .job_sat => 0.22
  | .struct_int, .ocb => 0.22
  | .work_sample, .job_perf => 0.55
  | .work_sample, .turnover => 0.40
  | .work_sample, .job_sat => 0.40
  | .work_sample, .ocb => 0.40
  | _, _ => 0.3

/-- TARGETING_MONSTER_SPELLS. -/
def TARGETING_MONSTER_SPELLS : List SpellId :=
  [.sample_size, .job_relevance, .imputation, .p_hacking, .practice_effect,
   .range_restrict, .item_leakage, .correction, .bootstrapping, .criterion_contam]

/-- TARGETING_CONSTRUCT_SPELLS. -/
def TARGETING_CONSTRUCT_SPELLS : List SpellId :=
  [.missing_data, .construct_drift, .item_analysis]

/-- clamp(v, lo, hi) = max(lo, min(hi, v)). -/
def clamp (v lo hi : ℝ) : ℝ := max lo (min hi v)

/-- Integer clamp, used at n = int(clamp(n + 150, 50, 420)) where every
operand is an integer so int() is the identity. -/
def clampZ (v lo hi : ℤ) : ℤ := max lo (min hi v)

/-- spearmanBrown(k, avgR) = (k * avgR) / (1 + (k - 1) * avgR). -/
noncomputable def spearmanBrown (k : ℕ) (avgR : ℝ) : ℝ :=
  ((k : ℝ) * avgR) / (1 + ((k : ℝ) - 1) * avgR)

/-- Python's round: round-half-to-even (banker's rounding) to an int. -/
noncomputable def pyRound (x : ℝ) : ℤ :=
  let f := ⌊x⌋
  let r := x - (f : ℝ)
  if r < 1 / 2 then f
  else if 1 / 2 < r then f + 1
  else if Even f then f else f + 1

/-- adverseImpactStarsFromBwd: star count from |rawBwd|. -/
noncomputable def adverseImpactStarsFromBwd (rawBwd : ℝ) : ℕ :=
  let d := |rawBwd|
  if d ≤ 0.10 then 5
  else if d ≤ 0.25 then 4
  else if d ≤ 0.45 then 3
  else if d ≤ 0.65 then 2
  else 1

/-- Result record of getPairAdverseImpact. -/
structure AdverseInfo where
  bwd : ℝ
  stars : ℕ
  requiresJobRelevance : Bool
  starsText : String

/-- getPairAdverseImpact(pred_id, out_id). -/
noncomputable def getPairAdverseImpact (pred_id out_id : CId) : AdverseInfo :=
  let bwd := ADVERSE_IMPACT_BWD pred_id out_id
  let stars := adverseImpactStarsFromBwd bwd
  { bwd := bwd
    stars := stars
    requiresJobRelevance := decide (stars ≤ 3)
    starsText := (List.replicate stars '★').asString ++ (List.replicate (5 - stars) '☆').asString }

/-- A construct stack: {"type": ..., "constructId": ..., "cards": [...]}. -/
structure Stack where
  cat : Category
  constructId : CId
  cards : List Card

/-- avgR field of a card.  Spell cards have no such key (reading it would
raise KeyError in the source); it is only ever read from cards stored in
construct stacks, which are item cards. -/
def Card.avgR : Card → ℝ
  | .item _ _ _ _ r => r
  | .spell _ => 0

/-- alphaFromStack: 0 for a missing or empty stack, else Spearman-Brown of
(number of cards, first card's avgR). -/
noncomputable def alphaFromStack : Option Stack → ℝ
  | none => 0
  | some st =>
    match st.cards with
    | [] => 0
    | c :: _ => spearmanBrown st.cards.length c.avgR

/-- approxPowerFromROBSandN(r_obs, n). -/
noncomputable def approxPowerFromROBSandN (r_obs : ℝ) (n : ℤ) : ℝ :=
  let r := clamp |r_obs| 0.0 0.999999
  clamp (0.05 + 0.94 * r * (((max 4 n : ℤ) : ℝ) - 3) / ((max 4 n : ℤ) : ℝ)) 0.05 0.99

/-- calcObservedValidity(pred_stack, out_stack). -/
noncomputable def calcObservedValidity (pred_stack out_stack : Stack) : ℝ :=
  let rho := TRUE_VALIDITY pred_stack.constructId out_stack.constructId
  let aP := alphaFromStack (some pred_stack)
  let aO := alphaFromStack (some out_stack)
  rho * Real.sqrt (max 0.05 aP * max 0.05 aO)

/-- predId / outId of a monster: a construct id or the sentinel "META". -/
inductive MRef where
  | c (id : CId)
  | META
deriving DecidableEq, Repr

/-- A monster record, mirroring the dict built by buildMonster. -/
structure Monster where
  name : String
  predId : MRef
  outId : MRef
  predAlpha : ℝ
  outAlpha : ℝ
  rTrue : ℝ
  adverseImpact : ℝ
  adverseStars : ℕ
  adverseStarsText : String
  requiresJobRelevance : Bool
  rObs : ℝ
  baseAtk : ℤ
  atk : ℤ
  baseN : ℤ
  n : ℤ
  power : ℝ
  attacksMade : ℕ
  maxAttacks : ℕ
  summoningSick : Bool
  hasJobRelevance : Bool
  hasImputation : Bool
  hasPHacking : Bool
  hasPracticeEffect : Bool
  itemLeakageApplied : Bool
  correctionApplied : Bool
  rangeRestrictionStacks : ℤ
  validityMultiplier : ℝ
  isMeta : Bool

/-- effective_multiplier = 0 if itemLeakageApplied else max(0, validityMultiplier). -/
def Monster.effectiveMultiplier (m : Monster) : ℝ :=
  if m.itemLeakageApplied then 0 else max 0 m.validityMultiplier

/-- The rObs assigned by refreshMonsterStats (non-meta):
rTrue * (max(0.05, predAlpha) * max(0.05, outAlpha)) ** 0.5, times the
effective multiplier. -/
noncomputable def monsterRObs (m : Monster) : ℝ :=
  (m.rTrue * Real.sqrt (max 0.05 m.predAlpha * max 0.05 m.outAlpha)) * m.effectiveMultiplier

/-- baseAtk = round(abs(rObs) * 10000). -/
noncomputable def monsterBaseAtk (m : Monster) : ℤ :=
  pyRound (|monsterRObs m| * 10000)

/-- correction_base = round(abs(rTrue) * effective_multiplier * 10000). -/
noncomputable def correctionBase (m : Monster) : ℤ :=
  pyRound (|m.rTrue| * m.effectiveMultiplier * 10000)

/-- effective_atk_base = correction_base if correctionApplied else baseAtk. -/
noncomputable def effectiveAtkBase (m : Monster) : ℤ :=
  if m.correctionApplied then correctionBase m else monsterBaseAtk m

/-- One range-restriction halving step: next_atk = round(next_atk / 2).
The float division by 2 of an int is exact, so real division is faithful. -/
noncomputable def halveOnce (a : ℤ) : ℤ := pyRound ((a : ℝ) / 2)

/-- atk after the rangeRestrictionStacks halving loop
(for _ in range(max(0, stacks))). -/
noncomputable def monsterAtk (m : Monster) : ℤ :=
  halveOnce^[(max 0 m.rangeRestrictionStacks).toNat] (effectiveAtkBase m)

/-- refreshMonsterStats(m).  The source mutates m in place; each assigned
field is a function of fields that the refresh itself never modifies, so
the sequential assignments equal this simultaneous update. -/
noncomputable def refreshMonsterStats (m : Monster) : Monster :=
  if m.isMeta then
    { m with power := clamp m.power 0.7 0.99 }
  else
    { m with
      rObs := monsterRObs m
      baseAtk := monsterBaseAtk m
      atk := monsterAtk m
      power := approxPowerFromROBSandN ((|monsterAtk m| : ℤ) / 10000.0 : ℝ) m.n }

/-- String form of a construct id, for the monster name f"{pred}x{out}". -/
def CId.str : CId → String
  | .cog_ability => "cog_ability"
  | .conscient => "conscient"
  | .struct_int => "struct_int"
  | .work_sample => "work_sample"
  | .job_perf => "job_perf"
  | .turnover => "turnover"
  | .job_sat => "job_sat"
  | .ocb => "ocb"

/-- buildMonster(pred_stack, out_stack). -/
noncomputable def buildMonster (pred_stack out_stack : Stack) : Monster :=
  let rho := TRUE_VALIDITY pred_stack.constructId out_stack.constructId
  let ai := getPairAdverseImpact pred_stack.constructId out_stack.constructId
  refreshMonsterStats
    { name := pred_stack.constructId.str ++ "×" ++ out_stack.constructId.str
      predId := .c pred_stack.constructId
      outId := .c out_stack.constructId
      predAlpha := alphaFromStack (some pred_stack)
      outAlpha := alphaFromStack (some out_stack)
      rTrue := rho
      adverseImpact := ai.bwd
      adverseStars := ai.stars
      adverseStarsText := ai.starsText
      requiresJobRelevance := ai.requiresJobRelevance
      rObs := 0
      baseAtk := 0
      atk := 0
      baseN := 50
      n := 50
      power := 0.1
      attacksMade := 0
      maxAttacks := 1
      summoningSick := true
      hasJobRelevance := false
      hasImputation := false
      hasPHacking := false
      hasPracticeEffect := false
      itemLeakageApplied := false
      correctionApplied := false
      rangeRestrictionStacks := 0
      validityMultiplier := 1
      isMeta := false }

/-- buildMetaMonster(monsters).  The dict literal initializes rObs, baseAtk,
atk and power and the four trailing assignments overwrite them; only the
final values are recorded here. -/
noncomputable def buildMetaMonster (monsters : List Monster) : Monster :=
  let mean_r := (monsters.map (fun m => |m.rObs|)).sum / (monsters.length : ℝ)
  let meta_r_true := clamp (mean_r * 1.35) 0.35 0.95
  let combined_n := (monsters.map (fun m => m.baseN)).sum
  { name := "Meta-Analytic Titan"
    predId := .META
    outId := .META
    predAlpha := 0.99
    outAlpha := 0.99
    rTrue := meta_r_true
    adverseImpact := 0
    adverseStars := 5
    adverseStarsText := "★★★★★"
    requiresJobRelevance := false
    rObs := meta_r_true
    baseAtk := pyRound (|meta_r_true| * 10000)
    atk := pyRound (|meta_r_true| * 10000)
    baseN := combined_n
    n := combined_n
    power := clamp (0.9 + (combined_n : ℝ) / 1000) 0.9 0.99
    attacksMade := 0
    maxAttacks := 1
    summoningSick := false
    hasJobRelevance := false
    hasImputation := false
    hasPHacking := false
    hasPracticeEffect := false
    itemLeakageApplied := false
    correctionApplied := false
    rangeRestrictionStacks := 0
    validityMultiplier := 1
    isMeta := true }

/-- A fixed three-slot zone (the constructs / monsters lists of length 3).
initial_state builds them as [None] * 3 and every transition preserves the
length, so the length is fixed in the embedding. -/
structure Slots (α : Type) where
  s0 : Option α
  s1 : Option α
  s2 : Option α

/-- arr[i] for i in range(3); out-of-range reads (which raise IndexError
in the source and are unreachable from legal actions) return none. -/
def Slots.get {α : Type} (z : Slots α) : ℕ → Option α
  | 0 => z.s0
  | 1 => z.s1
  | 2 => z.s2
  | _ => none

/-- arr[i] = v; out of range is the identity (unreachable from legal actions). -/
def Slots.set {α : Type} (z : Slots α) : ℕ → Option α → Slots α
  | 0, v => { z with s0 := v }
  | 1, v => { z with s1 := v }
  | 2, v => { z with s2 := v }
  | _ + 3, _ => z

/-- The zone as the underlying list [arr[0], arr[1], arr[2]]. -/
def Slots.toList {α : Type} (z : Slots α) : List (Option α) := [z.s0, z.s1, z.s2]

/-- Elementwise `for m in arr: if m: mutate m` over the three slots. -/
def Slots.mapSome {α : Type} (f : α → α) (z : Slots α) : Slots α :=
  ⟨z.s0.map f, z.s1.map f, z.s2.map f⟩

/-- [None, None, None]. -/
def Slots.empty {α : Type} : Slots α := ⟨none, none, none⟩

/-- firstEmptySlot: index of the first None, or none for the -1 sentinel. -/
def firstEmptySlot {α : Type} (z : Slots α) : Option ℕ :=
  if z.s0.isNone then some 0
  else if z.s1.isNone then some 1
  else if z.s2.isNone then some 2
  else none

/-- canMonsterAttack(monster), with the None check folded in. -/
def canMonsterAttack : Option Monster → Bool
  | none => false
  | some m =>
    if m.summoningSick ∨ m.maxAttacks ≤ m.attacksMade then false
    else if m.requiresJobRelevance ∧ ¬m.hasJobRelevance then false
    else true

/-- A player zone. -/
structure Player where
  lp : ℤ
  deck : List Card
  hand : List Card
  constructs : Slots Stack
  monsters : Slots Monster
  summoned : Bool
  experienceTokens : ℤ
  pendingDiscard : ℤ

/-- localCanMeta(player). -/
def localCanMeta (p : Player) : Bool :=
  match p.monsters.s0, p.monsters.s1, p.monsters.s2 with
  | some m0, some m1, some m2 =>
    (m1.predId = m0.predId ∧ m2.predId = m0.predId ∧
     m0.predId ≠ .META ∧ m1.predId ≠ .META ∧ m2.predId ≠ .META) ∨
    (m1.outId = m0.outId ∧ m2.outId = m0.outId ∧
     m0.outId ≠ .META ∧ m1.outId ≠ .META ∧ m2.outId ≠ .META)
  | _, _, _ => false

/-- The full game state (the mulligan sub-dict, never read, is omitted). -/
structure GameState where
  status : Status
  currentPlayer : Pl
  winner : Option Pl
  p1 : Player
  p2 : Player

/-- s["players"][pid]. -/
def GameState.player (s : GameState) : Pl → Player
  | .P1 => s.p1
  | .P2 => s.p2

/-- s["players"][pid] = p. -/
def GameState.setPlayer (s : GameState) : Pl → Player → GameState
  | .P1, p => { s with p1 := p }
  | .P2, p => { s with p2 := p }

/-- In-place update of one player zone. -/
def GameState.updatePlayer (s : GameState) (pid : Pl) (f : Player → Player) : GameState :=
  s.setPlayer pid (f (s.player pid))

/-- The player zone a play_spell target_owner refers to. -/
def ownerPid (pid : Pl) : Owner → Pl
  | .me => pid
  | .opp => pid.other

/-- MAX_HAND_SIZE. -/
def MAX_HAND_SIZE : ℕ := 12

/-- STARTING_HAND_SIZE. -/
def STARTING_HAND_SIZE : ℕ := 12

/-- EXPERIENCE_MISS_THRESHOLD. -/
def EXPERIENCE_MISS_THRESHOLD : ℤ := 4

/-- EXPERIENCE_DRAW_COUNT. -/
def EXPERIENCE_DRAW_COUNT : ℕ := 3

/-- makeItemCard(construct_id). -/
def makeItemCard (construct_id : CId) : Card :=
  let c := CONSTRUCTS construct_id
  .item construct_id c.cat c.name c.short c.avgR

/-- makeSpellCard(card_id). -/
def makeSpellCard (card_id : SpellId) : Card := .spell card_id

/-- buildStartingDeck(): COUNTS iterated in insertion order, each id
contributing its count of item or spell cards. -/
def buildStartingDeck : List Card :=
  List.replicate 4 (makeItemCard .cog_ability) ++
  List.replicate 4 (makeItemCard .conscient) ++
  List.replicate 4 (makeItemCard .struct_int) ++
  List.replicate 4 (makeItemCard .work_sample) ++
  List.replicate 4 (makeItemCard .job_perf) ++
  List.replicate 4 (makeItemCard .turnover) ++
  List.replicate 4 (makeItemCard .job_sat) ++
  List.replicate 4 (makeItemCard .ocb) ++
  List.replicate 3 (makeSpellCard .sample_size) ++
  List.replicate 4 (makeSpellCard .job_relevance) ++
  List.replicate 1 (makeSpellCard .imputation) ++
  List.replicate 1 (makeSpellCard .missing_data) ++
  List.replicate 2 (makeSpellCard .range_restrict) ++
  List.replicate 2 (makeSpellCard .item_leakage) ++
  List.replicate 2 (makeSpellCard .correction) ++
  List.replicate 1 (makeSpellCard .p_hacking) ++
  List.replicate 2 (makeSpellCard .practice_effect) ++
  List.replicate 2 (makeSpellCard .bootstrapping) ++
  List.replicate 2 (makeSpellCard .item_analysis) ++
  List.replicate 1 (makeSpellCard .construct_drift) ++
  List.replicate 1 (makeSpellCard .criterion_contam)

/-- drawCards(player, n, allowOverflow): n iterations; without overflow the
loop breaks once the hand holds MAX_HAND_SIZE cards; deck.pop() removes
from the tail of the deck. -/
def drawCards (p : Player) (n : ℕ) (allowOverflow : Bool) : Player :=
  match n with
  | 0 => p
  | n + 1 =>
    if ¬allowOverflow ∧ MAX_HAND_SIZE ≤ p.hand.length then p
    else
      match p.deck.getLast? with
      | none => drawCards p n allowOverflow
      | some c =>
        drawCards { p with deck := p.deck.dropLast, hand := p.hand ++ [c] } n allowOverflow

/-- enforceHandLimit(player). -/
def enforceHandLimit (p : Player) : Player :=
  { p with pendingDiscard := max 0 ((p.hand.length : ℤ) - (MAX_HAND_SIZE : ℤ)) }

/-- initial_state(). -/
def initial_state : GameState :=
  let p0 : Player :=
    { lp := 8000, deck := buildStartingDeck, hand := [], constructs := Slots.empty
      monsters := Slots.empty, summoned := false, experienceTokens := 0, pendingDiscard := 0 }
  { status := .active
    currentPlayer := .P1
    winner := none
    p1 := drawCards p0 STARTING_HAND_SIZE false
    p2 := drawCards p0 STARTING_HAND_SIZE false }

/-- is_terminal(state). -/
def is_terminal (s : GameState) : Prop := s.status = .finished

instance : DecidablePred is_terminal := fun s => by unfold is_terminal; infer_instance

/-- terminal_value(state, player). -/
def terminal_value (s : GameState) (player : Pl) : ℤ :=
  if s.status ≠ .finished then 0
  else
    match s.winner with
    | some w => if w = player then 1 else -1
    | none => 0

/-- The discard-only move list emitted while pendingDiscard > 0:
one discard_card per hand index. -/
def discardMoves (p : Player) : List Action :=
  (List.range p.hand.length).map Action.discard_card

/-- The moves contributed by hand card c at hand index h: place_card over
the three construct slots for an item (skipping mismatched or full
stacks), spell targets over occupied monster / construct slots for a
spell.  The source iterates enumerate(p.hand); here the pair (h, c) is
supplied by the caller. -/
def cardMoves (s : GameState) (pid : Pl) (h : ℕ) (c : Card) : List Action :=
  match c with
  | .item cid _ _ _ _ =>
    (List.range 3).filterMap fun slot =>
      match ((s.player pid).constructs.get slot) with
      | none => some (.place_card h slot)
      | some st =>
        if st.constructId = cid ∧ st.cards.length < 3 then some (.place_card h slot) else none
  | .spell cid =>
    (if cid ∈ TARGETING_MONSTER_SPELLS then
      [Owner.me, Owner.opp].flatMap fun ow =>
        (List.range 3).filterMap fun ts =>
          if ((s.player (ownerPid pid ow)).monsters.get ts).isSome then
            some (.play_spell h ow .monster ts)
          else none
    else []) ++
    (if cid ∈ TARGETING_CONSTRUCT_SPELLS then
      [Owner.me, Owner.opp].flatMap fun ow =>
        (List.range 3).filterMap fun ts =>
          if ((s.player (ownerPid pid ow)).constructs.get ts).isSome then
            some (.play_spell h ow .construct ts)
          else none
    else [])

/-- The summon moves: over all (pred_slot, out_slot) pairs, the plain
variant when a monster slot is open, else one replacement variant per
occupied monster slot. -/
def summonMoves (p : Player) : List Action :=
  if p.summoned then []
  else
    (List.range 3).flatMap fun ps =>
      (List.range 3).flatMap fun os =>
        match firstEmptySlot p.monsters with
        | some _ => [.summon ps os none]
        | none =>
          (List.range 3).filterMap fun r =>
            if (p.monsters.get r).isSome then some (.summon ps os (some r)) else none

/-- The attack moves: for each attacker slot that can attack, a direct lp
attack when the opponent has no monsters, plus one attack per occupied
opposing monster slot. -/
def attackMoves (s : GameState) (pid : Pl) : List Action :=
  let oppM := (s.player pid.other).monsters
  let opponent_has_monsters := (oppM.toList.any Option.isSome : Bool)
  (List.range 3).flatMap fun a =>
    if canMonsterAttack ((s.player pid).monsters.get a) then
      (if ¬opponent_has_monsters then [Action.attack a .lp] else []) ++
      ((List.range 3).filterMap fun t =>
        if (oppM.get t).isSome then some (.attack a (.monster t)) else none)
    else []

/-- legal_actions(state). -/
def legal_actions (s : GameState) : List Action :=
  if s.status = .finished then []
  else
    let pid := s.currentPlayer
    let p := s.player pid
    if 0 < p.pendingDiscard then discardMoves p
    else
      ((List.range p.hand.length).flatMap fun h =>
        match p.hand[h]? with
        | some c => cardMoves s pid h c
        | none => []) ++
      (if EXPERIENCE_MISS_THRESHOLD ≤ p.experienceTokens ∧ 0 < p.deck.length then
        [Action.experience_draw]
      else []) ++
      summonMoves p ++
      (if localCanMeta p then [Action.meta] else []) ++
      attackMoves s pid ++
      [Action.end_turn]

/-- _mark_game_over(state). -/
def mark_game_over (s : GameState) : GameState :=
  if s.p1.lp ≤ 0 ∨ s.p2.lp ≤ 0 then
    { s with status := .finished, winner := some (if 0 < s.p1.lp then Pl.P1 else Pl.P2) }
  else s

/-- The summon branch of next_state (after the terminal check). -/
noncomputable def applySummon (s : GameState) (pid : Pl) (ps os : ℕ) (rep : Option ℕ) : GameState :=
  let p := s.player pid
  match p.constructs.get ps, p.constructs.get os with
  | some pred, some outc =>
    if pred.cat = .predictor ∧ outc.cat = .outcome ∧ ps ≠ os then
      let monster := buildMonster pred outc
      let cs := (p.constructs.set ps none).set os none
      let mslot :=
        match firstEmptySlot p.monsters with
        | some i => i
        | none => rep.getD 0
      s.setPlayer pid
        { p with constructs := cs, monsters := p.monsters.set mslot (some monster), summoned := true }
    else s
  | _, _ => s

/-- The monster-target arm of the spell-resolution chain of next_state,
applied to the state with the spell card already removed from the hand.
tpid = ownerPid pid ow; the source's `owner is me` test holds exactly
when ow = me. -/
noncomputable def applySpellM (s1 : GameState) (tpid : Pl) (ow : Owner) (cid : SpellId)
    (ts : ℕ) : GameState :=
    match (s1.player tpid).monsters.get ts with
    | none => s1
    | some m =>
      let setM : Option Monster → GameState := fun v =>
        s1.updatePlayer tpid fun p => { p with monsters := p.monsters.set ts v }
      match cid with
      | .sample_size => setM (some (refreshMonsterStats { m with n := clampZ (m.n + 150) 50 420 }))
      | .job_relevance => if ow = .me then setM (some { m with hasJobRelevance := true }) else s1
      | .imputation => if ow = .me then setM (some { m with hasImputation := true }) else s1
      | .p_hacking => if ow = .me then setM (some { m with hasPHacking := true }) else s1
      | .practice_effect => setM (some { m with hasPracticeEffect := true })
      | .missing_data =>
        if m.hasImputation then setM (some { m with hasImputation := false }) else setM none
      | .range_restrict =>
        if ow = .opp then
          setM (some (refreshMonsterStats
            { m with rangeRestrictionStacks := max 0 m.rangeRestrictionStacks + 1 }))
        else s1
      | .item_leakage =>
        if ow = .opp then setM (some (refreshMonsterStats { m with itemLeakageApplied := true }))
        else s1
      | .correction =>
        if ow = .me then
          setM (some (refreshMonsterStats { m with correctionApplied := true, rangeRestrictionStacks := 0 }))
        else s1
      | .bootstrapping =>
        if ow = .me then
          setM (some (refreshMonsterStats { m with baseN := m.baseN + 50, n := m.n + 50 }))
        else s1
      | .criterion_contam =>
        if ow = .opp then
          setM (some (refreshMonsterStats
            { m with n := max 1 (Int.fdiv m.n 2), baseN := max 1 (Int.fdiv m.baseN 2) }))
        else s1
      | .item_analysis => s1
      | .construct_drift => s1

/-- The construct-target arm of the spell-resolution chain. -/
noncomputable def applySpellC (s1 : GameState) (tpid : Pl) (ow : Owner) (cid : SpellId)
    (ts : ℕ) : GameState :=
    match (s1.player tpid).constructs.get ts with
    | none => s1
    | some st =>
      let setC : Option Stack → GameState := fun v =>
        s1.updatePlayer tpid fun p => { p with constructs := p.constructs.set ts v }
      match cid with
      | .missing_data => setC none
      | .item_analysis =>
        if ow = .me ∧ st.cards.length < 3 then
          match st.cards.getLast? with
          | some c => setC (some { st with cards := st.cards ++ [c] })
          | none => s1  -- cards[-1] raises IndexError on an empty stack; stacks are invariantly nonempty
        else s1
      | .construct_drift =>
        if ow = .opp then
          if 1 < st.cards.length then setC (some { st with cards := st.cards.dropLast })
          else setC none
        else s1
      | _ => s1

/-- The play_spell dispatch on target_type (the source's elif chain tests
cid and target_type together; each spell resolves in exactly one arm). -/
noncomputable def applySpell (s1 : GameState) (_pid tpid : Pl) (ow : Owner) (cid : SpellId)
    (tt : TType) (ts : ℕ) : GameState :=
  match tt with
  | .monster => applySpellM s1 tpid ow cid ts
  | .construct => applySpellC s1 tpid ow cid ts

/-- The attack branch of next_state. -/
noncomputable def applyAttack (s : GameState) (pid : Pl) (aslot : ℕ) (tgt : ATarget) : GameState :=
  match (s.player pid).monsters.get aslot with
  | none => s  -- `if attacker:` fails; the slot read raises for aslot out of range
  | some att0 =>
    let att := { att0 with attacksMade := att0.attacksMade + 1 }
    let s1 := s.updatePlayer pid fun p => { p with monsters := p.monsters.set aslot (some att) }
    let s2 :=
      match tgt with
      | .lp => s1.updatePlayer pid.other fun o => { o with lp := max 0 (o.lp - att.atk) }
      | .monster ts =>
        match (s1.player pid.other).monsters.get ts with
        | none => s1
        | some d =>
          if d.atk < att.atk then
            s1.updatePlayer pid.other fun o =>
              { o with lp := max 0 (o.lp - (att.atk - d.atk)), monsters := o.monsters.set ts none }
          else if att.atk < d.atk then
            s1.updatePlayer pid fun p =>
              { p with lp := max 0 (p.lp - (d.atk - att.atk)), monsters := p.monsters.set aslot none }
          else
            (s1.updatePlayer pid fun p => { p with monsters := p.monsters.set aslot none }).updatePlayer
              pid.other fun o => { o with monsters := o.monsters.set ts none }
    match (s2.player pid).monsters.get aslot with
    | some m2 =>
      if m2.hasPHacking then s2.updatePlayer pid fun p => { p with monsters := p.monsters.set aslot none }
      else s2
    | none => s2

/-- The meta branch of next_state. -/
noncomputable def applyMeta (s : GameState) (pid : Pl) : GameState :=
  if localCanMeta (s.player pid) then
    s.updatePlayer pid fun p =>
      { p with monsters := Slots.empty.set 0 (some (buildMetaMonster (p.monsters.toList.filterMap id))) }
  else s

/-- The end_turn branch of next_state. -/
noncomputable def applyEndTurn (s : GameState) (pid : Pl) : GameState :=
  let s1 := s.updatePlayer pid fun p =>
    { p with monsters := p.monsters.mapSome fun m =>
        refreshMonsterStats { m with correctionApplied := false, itemLeakageApplied := false } }
  let s2 := { s1 with currentPlayer := pid.other }
  let s3 := s2.updatePlayer pid.other fun np =>
    enforceHandLimit (drawCards { np with summoned := false } 1 true)
  s3.updatePlayer pid.other fun np =>
    { np with monsters := np.monsters.mapSome fun m =>
        refreshMonsterStats { m with summoningSick := false, attacksMade := 0, maxAttacks := 1 } }

/-- next_state(state, action).  The source deep-clones the state and
mutates the clone; the embedding returns the new value directly.  Branches
that end in an early `return GameState(s)` bypass _mark_game_over, and
index / key errors (which would propagate as exceptions, all unreachable
from legal actions) are embedded as returning the state unchanged. -/
noncomputable def next_state (s : GameState) (a : Action) : GameState :=
  if s.status = .finished then s
  else
    let pid := s.currentPlayer
    match a with
    | .place_card h slot =>
      (match (s.player pid).hand[h]? with
       | none => s  -- hand[h] raises IndexError
       | some (.spell _) => s  -- `if not card.get("isItem"): return GameState(s)`
       | some (.item cid cat nm sh r) =>
         mark_game_over (s.updatePlayer pid fun p =>
           { p with
             hand := p.hand.eraseIdx h
             constructs :=
               match p.constructs.get slot with
               | none => p.constructs.set slot (some ⟨cat, cid, [.item cid cat nm sh r]⟩)
               | some st => p.constructs.set slot (some { st with cards := st.cards ++ [.item cid cat nm sh r] }) }))
    | .discard_card h =>
      mark_game_over (s.updatePlayer pid fun p =>
        if h < p.hand.length then
          { p with hand := p.hand.eraseIdx h, pendingDiscard := max 0 (p.pendingDiscard - 1) }
        else p)
    | .experience_draw =>
      mark_game_over (s.updatePlayer pid fun p =>
        enforceHandLimit
          (drawCards { p with experienceTokens := p.experienceTokens - EXPERIENCE_MISS_THRESHOLD }
            EXPERIENCE_DRAW_COUNT true))
    | .summon ps os rep => mark_game_over (applySummon s pid ps os rep)
    | .play_spell h ow tt ts =>
      (match (s.player pid).hand[h]? with
       | none => s  -- hand.pop(h) raises IndexError
       | some (.item ..) => s  -- card["id"] raises KeyError; the exception discards the transition
       | some (.spell cid) =>
         mark_game_over
           (applySpell (s.updatePlayer pid fun p => { p with hand := p.hand.eraseIdx h })
             pid (ownerPid pid ow) ow cid tt ts))
    | .attack aslot tgt => mark_game_over (applyAttack s pid aslot tgt)
    | .meta => mark_game_over (applyMeta s pid)
    | .end_turn => mark_game_over (applyEndTurn s pid)

/-- The list of action descriptors registered by ActionSpace._build, in
registration order.  _register keys each descriptor by its canonical
sorted-key JSON, which is injective on descriptors, and every descriptor
below is distinct, so ActionSpace.to_id succeeds exactly on the members
of this list (raising KeyError otherwise). -/
def actionSpaceActions : List Action :=
  [Action.end_turn, Action.meta, Action.experience_draw] ++
  ((List.range MAX_HAND_SIZE).flatMap fun h =>
    [Action.discard_card h] ++
    ((List.range 3).map fun slot => Action.place_card h slot) ++
    ([Owner.me, Owner.opp].flatMap fun ow =>
      (List.range 3).flatMap fun ts =>
        [Action.play_spell h ow .monster ts, Action.play_spell h ow .construct ts])) ++
  ((List.range 3).flatMap fun ps =>
    (List.range 3).flatMap fun os =>
      Action.summon ps os none :: ((List.range 3).map fun r => Action.summon ps os (some r))) ++
  ((List.range 3).flatMap fun a =>
    Action.attack a .lp :: ((List.range 3).map fun ts => Action.attack a (.monster ts)))

/-- The game loop shared by self_play_episode and play_match:
while (not terminal) and move_num < max_moves, apply the chosen action.
Everything that selects the action id (MCTS search, priors, temperature
sampling / argmax over the static action space) is abstracted as pick:
any concrete run corresponds to some pick function.  Returns the final
state and final move count. -/
noncomputable def playFrom (pick : ℕ → GameState → Action) (maxMoves : ℕ)
    (s : GameState) (moveNum : ℕ) : GameState × ℕ :=
  if h : is_terminal s ∨ maxMoves ≤ moveNum then (s, moveNum)
  else playFrom pick maxMoves (next_state s (pick moveNum s)) (moveNum + 1)
termination_by maxMoves - moveNum
decreasing_by simp only [not_or, not_le] at h; omega

/-- The lp tiebreak: winner = 1 if p1_lp >= p2_lp else 2. -/
def tiebreakWinner (s : GameState) : Pl :=
  if (s.player .P2).lp ≤ (s.player .P1).lp then .P1 else .P2

/-- The winner recorded by self_play_episode: the engine winner field when
the loop stopped at a terminal state, else the lp tiebreak.  (Trajectory
sample recording is independent of the winner computation and omitted;
int(state["winner"]) on a terminal state reads the winner field, which
_mark_game_over always sets when it finishes the game.) -/
noncomputable def selfPlayEpisodeWinner (pick : ℕ → GameState → Action) (maxMoves : ℕ) : Option Pl :=
  let fin := (playFrom pick maxMoves initial_state 0).1
  if is_terminal fin then fin.winner else some (tiebreakWinner fin)

/-- The winner returned by play_match: identical stop condition and
winner selection as self_play_episode (play_match alternates which net
drives the MCTS, which is again absorbed into pick). -/
noncomputable def playMatchWinner (pick : ℕ → GameState → Action) (maxMoves : ℕ) : Option Pl :=
  let fin := (playFrom pick maxMoves initial_state 0).1
  if is_terminal fin then fin.winner else some (tiebreakWinner fin)

/-- A bare player zone used by the concrete fixture states below. -/
def emptyPlayer : Player :=
  { lp := 8000, deck := [], hand := [], constructs := Slots.empty, monsters := Slots.empty
    summoned := false, experienceTokens := 0, pendingDiscard := 0 }

/-- A finished fixture state. -/
def finishedState : GameState :=
  { status := .finished, currentPlayer := .P1, winner := some .P1
    p1 := emptyPlayer, p2 := { emptyPlayer with lp := 0 } }

/-- An active fixture state with empty zones. -/
def activeEmptyState : GameState :=
  { status := .active, currentPlayer := .P1, winner := none
    p1 := emptyPlayer, p2 := emptyPlayer }

/-- An active fixture state with a 13-card hand and pendingDiscard = 1,
as produced by the overflow draw of end_turn from a full hand. -/
def bigHandState : GameState :=
  { status := .active, currentPlayer := .P1, winner := none
    p1 := { emptyPlayer with hand := List.replicate 13 (makeSpellCard .sample_size), pendingDiscard := 1 }
    p2 := emptyPlayer }

/-- An active fixture state with a 14-card hand and pendingDiscard = 2,
as produced by experience_draw from a 11-or-12-card hand. -/
def overflowState : GameState :=
  { status := .active, currentPlayer := .P1, winner := none
    p1 := { emptyPlayer with hand := List.replicate 14 (makeSpellCard .sample_size), pendingDiscard := 2 }
    p2 := emptyPlayer }

/-- An active fixture state where player 1 holds a missing_data spell and
owns a construct stack of two cog_ability item cards in slot 0. -/
def twoCardStackState : GameState :=
  { status := .active, currentPlayer := .P1, winner := none
    p1 := { emptyPlayer with
            hand := [makeSpellCard .missing_data]
            constructs := ⟨some ⟨.predictor, .cog_ability, [makeItemCard .cog_ability, makeItemCard .cog_ability]⟩, none, none⟩ }
    p2 := emptyPlayer }

theorem Pl.other_ne (p : Pl) : p.other ≠ p := by cases p <;> simp [Pl.other]

theorem player_updatePlayer (s : GameState) (pid : Pl) (f : Player → Player) (q : Pl) :
    (s.updatePlayer pid f).player q = if q = pid then f (s.player pid) else s.player q := by
  cases pid <;> cases q <;>
    simp [GameState.updatePlayer, GameState.setPlayer, GameState.player]

theorem currentPlayer_updatePlayer (s : GameState) (pid : Pl) (f : Player → Player) :
    (s.updatePlayer pid f).currentPlayer = s.currentPlayer := by
  cases pid <;> rfl

theorem status_updatePlayer (s : GameState) (pid : Pl) (f : Player → Player) :
    (s.updatePlayer pid f).status = s.status := by
  cases pid <;> rfl

theorem mark_game_over_player (s : GameState) (q : Pl) :
    (mark_game_over s).player q = s.player q := by
  unfold mark_game_over; split <;> cases q <;> rfl

theorem mark_game_over_currentPlayer (s : GameState) :
    (mark_game_over s).currentPlayer = s.currentPlayer := by
  unfold mark_game_over; split <;> rfl

theorem Slots.get_oob {α : Type} (z : Slots α) (i : ℕ) (h : 3 ≤ i) : z.get i = none := by
  rcases i with _ | _ | _ | i <;> first | omega | rfl

theorem Slots.lt_of_isSome_get {α : Type} (z : Slots α) (i : ℕ) (h : (z.get i).isSome) : i < 3 := by
  by_contra hc
  rw [Slots.get_oob z i (by omega)] at h
  simp at h

theorem Slots.get_set_self {α : Type} (z : Slots α) (i : ℕ) (v : Option α) (h : i < 3) :
    (z.set i v).get i = v := by
  rcases i with _ | _ | _ | i <;> first | omega | rfl

theorem Slots.get_set_of_ne {α : Type} (z : Slots α) (i j : ℕ) (v : Option α) (h : j ≠ i) :
    (z.set i v).get j = z.get j := by
  rcases i with _ | _ | _ | i <;> rcases j with _ | _ | _ | j <;>
    simp_all [Slots.set, Slots.get]

theorem Slots.get_mapSome {α : Type} (f : α → α) (z : Slots α) (i : ℕ) :
    (z.mapSome f).get i = (z.get i).map f := by
  rcases i with _ | _ | _ | i <;> rfl

theorem drawCards_stable (n : ℕ) (o : Bool) (p : Player) :
    (drawCards p n o).lp = p.lp ∧ (drawCards p n o).constructs = p.constructs ∧
    (drawCards p n o).monsters = p.monsters ∧ (drawCards p n o).summoned = p.summoned ∧
    (drawCards p n o).experienceTokens = p.experienceTokens ∧
    (drawCards p n o).pendingDiscard = p.pendingDiscard := by
  induction n generalizing p with
  | zero => exact ⟨rfl, rfl, rfl, rfl, rfl, rfl⟩
  | succ n ih =>
    rw [drawCards]
    split
    · exact ⟨rfl, rfl, rfl, rfl, rfl, rfl⟩
    · cases hd : p.deck.getLast? with
      | none => exact ih p
      | some c => simpa using ih { p with deck := p.deck.dropLast, hand := p.hand ++ [c] }

theorem drawCards_overflow_length (n : ℕ) (p : Player) :
    (drawCards p n true).hand.length = p.hand.length + min n p.deck.length := by
  induction n generalizing p with
  | zero => simp [drawCards]
  | succ n ih =>
    rw [drawCards, if_neg (by simp)]
    cases hd : p.deck.getLast? with
    | none =>
      have h2 := ih p
      rw [List.getLast?_eq_none_iff] at hd
      show (drawCards p n true).hand.length = p.hand.length + min (n + 1) p.deck.length
      rw [h2, hd]
      simp
    | some c =>
      have hne : p.deck ≠ [] := by
        intro he; rw [he] at hd; simp at hd
      have hlen : 0 < p.deck.length := List.length_pos.mpr hne
      show (drawCards { p with deck := p.deck.dropLast, hand := p.hand ++ [c] } n true).hand.length
          = p.hand.length + min (n + 1) p.deck.length
      rw [ih]
      simp only [List.length_append, List.length_singleton, List.length_dropLast]
      omega

theorem drawCards_mem (n : ℕ) (o : Bool) (p : Player) :
    (∀ c ∈ (drawCards p n o).hand, c ∈ p.hand ∨ c ∈ p.deck) ∧
    (∀ c ∈ (drawCards p n o).deck, c ∈ p.deck) := by
  induction n generalizing p with
  | zero =>
    exact ⟨fun c hc => Or.inl hc, fun c hc => hc⟩
  | succ n ih =>
    rw [drawCards]
    split
    · exact ⟨fun c hc => Or.inl hc, fun c hc => hc⟩
    · cases hd : p.deck.getLast? with
      | none => exact ih p
      | some c0 =>
        have hc0 : c0 ∈ p.deck := by
          rw [List.getLast?_eq_some_iff] at hd
          obtain ⟨l', hl⟩ := hd
          rw [hl]; simp
        obtain ⟨ih1, ih2⟩ := ih { p with deck := p.deck.dropLast, hand := p.hand ++ [c0] }
        constructor
        · intro c hc
          rcases ih1 c hc with hmem | hmem

          · simp only [List.mem_append, List.mem_singleton] at hmem
            rcases hmem with hmem | rfl
            · exact Or.inl hmem
            · exact Or.inr hc0
          · exact Or.inr (List.dropLast_subset _ hmem)
        · intro c hc
          exact List.dropLast_subset _ (ih2 c hc)

theorem pyRound_intCast (z : ℤ) : pyRound ((z : ℤ) : ℝ) = z := by
  unfold pyRound
  rw [Int.floor_intCast]
  norm_num

theorem halveOnce_two_mul (z : ℤ) : halveOnce (2 * z) = z := by
  unfold halveOnce
  have h : (((2 * z : ℤ) : ℝ)) / 2 = ((z : ℤ) : ℝ) := by push_cast; ring
  rw [h, pyRound_intCast]

theorem clamp_clamp (x lo hi : ℝ) (h : lo ≤ hi) :
    clamp (clamp x lo hi) lo hi = clamp x lo hi := by
  unfold clamp
  have h1 : max lo (min hi x) ≤ hi := max_le h (min_le_left _ _)
  rw [min_eq_right h1, ← max_assoc, max_self]

/-- C7: if is_terminal(S) (status is finished), next_state returns the
state unchanged, for every action. -/
theorem next_state_of_terminal (s : GameState) (a : Action) (h : is_terminal s) :
    next_state s a = s := by
  unfold is_terminal at h
  simp [next_state, h]

/-- Witness for C7: a concrete finished state is fixed by next_state. -/
theorem next_state_of_terminal_witness :
    is_terminal finishedState ∧ next_state finishedState .end_turn = finishedState :=
  ⟨rfl, next_state_of_terminal finishedState .end_turn rfl⟩

/-- C6: refreshMonsterStats is idempotent for every monster, meta or not:
a second refresh with no intervening field change reproduces the same
rObs, baseAtk, atk and power (indeed the identical record). -/
theorem refreshMonsterStats_idempotent (m : Monster) :
    refreshMonsterStats (refreshMonsterStats m) = refreshMonsterStats m := by
  cases hm : m.isMeta with
  | true =>
    simp only [refreshMonsterStats, hm, if_true]
    rw [clamp_clamp _ _ _ (by norm_num)]
  | false =>
    simp only [refreshMonsterStats, hm, Bool.false_eq_true, if_false]
    rfl

/-- The effect of one cast of range_restrict on an opposing monster
(next_state: rangeRestrictionStacks = max(0, stacks) + 1, then refresh). -/
noncomputable def castRangeRestrict (m : Monster) : Monster :=
  refreshMonsterStats { m with rangeRestrictionStacks := max 0 m.rangeRestrictionStacks + 1 }

theorem castRangeRestrict_isMeta (m : Monster) :
    (castRangeRestrict m).isMeta = m.isMeta := by
  unfold castRangeRestrict refreshMonsterStats
  split <;> rfl

theorem castRangeRestrict_stacks (m : Monster) (h : m.isMeta = false) :
    (castRangeRestrict m).rangeRestrictionStacks = max 0 m.rangeRestrictionStacks + 1 := by
  simp [castRangeRestrict, refreshMonsterStats, h]

theorem castRangeRestrict_effBase (m : Monster) (h : m.isMeta = false) :
    effectiveAtkBase (castRangeRestrict m) = effectiveAtkBase m := by
  simp only [castRangeRestrict, refreshMonsterStats, h, Bool.false_eq_true, if_false]
  rfl

theorem castRangeRestrict_atk (m : Monster) (h : m.isMeta = false) :
    (castRangeRestrict m).atk
      = halveOnce^[(max 0 m.rangeRestrictionStacks + 1).toNat] (effectiveAtkBase m) := by
  simp only [castRangeRestrict, refreshMonsterStats, h, Bool.false_eq_true, if_false]
  show halveOnce^[(max 0 (max 0 m.rangeRestrictionStacks + 1)).toNat]
      (effectiveAtkBase { m with rangeRestrictionStacks := max 0 m.rangeRestrictionStacks + 1 })
    = halveOnce^[(max 0 m.rangeRestrictionStacks + 1).toNat] (effectiveAtkBase m)
  have h1 : max 0 (max 0 m.rangeRestrictionStacks + 1) = max 0 m.rangeRestrictionStacks + 1 := by
    have : (0 : ℤ) ≤ max 0 m.rangeRestrictionStacks := le_max_left _ _
    omega
  rw [h1]
  rfl

/-- C8: for a non-meta monster whose effective attack base after refresh is
10000 (and no prior range-restriction stacks), one, two and three casts of
range_restrict, each incrementing rangeRestrictionStacks and re-running
the refresh rule (which iterates atk = round(atk / 2), banker's rounding),
yield atk = 5000, 2500 and 1250. -/
theorem range_restrict_halving (m : Monster) (hmeta : m.isMeta = false)
    (hbase : effectiveAtkBase m = 10000) (hstacks : m.rangeRestrictionStacks = 0) :
    (castRangeRestrict m).atk = 5000 ∧
    (castRangeRestrict (castRangeRestrict m)).atk = 2500 ∧
    (castRangeRestrict (castRangeRestrict (castRangeRestrict m))).atk = 1250 := by
  have e1 : halveOnce 10000 = 5000 := by
    rw [show (10000 : ℤ) = 2 * 5000 by norm_num, halveOnce_two_mul]
  have e2 : halveOnce 5000 = 2500 := by
    rw [show (5000 : ℤ) = 2 * 2500 by norm_num, halveOnce_two_mul]
  have e3 : halveOnce 2500 = 1250 := by
    rw [show (2500 : ℤ) = 2 * 1250 by norm_num, halveOnce_two_mul]
  have hm1 : (castRangeRestrict m).isMeta = false := by rw [castRangeRestrict_isMeta, hmeta]
  have hm2 : (castRangeRestrict (castRangeRestrict m)).isMeta = false := by
    rw [castRangeRestrict_isMeta, hm1]
  have hb1 : effectiveAtkBase (castRangeRestrict m) = 10000 := by
    rw [castRangeRestrict_effBase m hmeta, hbase]
  have hb2 : effectiveAtkBase (castRangeRestrict (castRangeRestrict m)) = 10000 := by
    rw [castRangeRestrict_effBase _ hm1, hb1]
  have hs1 : (castRangeRestrict m).rangeRestrictionStacks = 1 := by
    rw [castRangeRestrict_stacks m hmeta, hstacks]; decide
  have hs2 : (castRangeRestrict (castRangeRestrict m)).rangeRestrictionStacks = 2 := by
    rw [castRangeRestrict_stacks _ hm1, hs1]; decide
  refine ⟨?_, ?_, ?_⟩
  · rw [castRangeRestrict_atk m hmeta, hstacks, hbase,
      show (max 0 (0 : ℤ) + 1).toNat = 1 by decide]
    simp [e1]
  · rw [castRangeRestrict_atk _ hm1, hs1, hb1,
      show (max 0 (1 : ℤ) + 1).toNat = 2 by decide]
    simp [Function.iterate_succ_apply', e1, e2]
  · rw [castRangeRestrict_atk _ hm2, hs2, hb2,
      show (max 0 (2 : ℤ) + 1).toNat = 3 by decide]
    simp [Function.iterate_succ_apply', e1, e2, e3]

/-- A concrete non-meta monster whose effective attack base is 10000:
correctionApplied with rTrue = 1 and multiplier 1. -/
def mW : Monster :=
  { name := "w", predId := .c .cog_ability, outId := .c .job_perf, predAlpha := 1, outAlpha := 1
    rTrue := 1, adverseImpact := 0, adverseStars := 5, adverseStarsText := "", requiresJobRelevance := false
    rObs := 0, baseAtk := 0, atk := 0, baseN := 50, n := 50, power := 0.1, attacksMade := 0
    maxAttacks := 1, summoningSick := false, hasJobRelevance := false, hasImputation := false
    hasPHacking := false, hasPracticeEffect := false, itemLeakageApplied := false
    correctionApplied := true, rangeRestrictionStacks := 0, validityMultiplier := 1, isMeta := false }

/-- Witness for C8 at the concrete monster mW. -/
theorem range_restrict_halving_witness :
    mW.isMeta = false ∧ effectiveAtkBase mW = 10000 ∧ mW.rangeRestrictionStacks = 0 ∧
    (castRangeRestrict mW).atk = 5000 ∧
    (castRangeRestrict (castRangeRestrict mW)).atk = 2500 ∧
    (castRangeRestrict (castRangeRestrict (castRangeRestrict mW))).atk = 1250 := by
  have hbase : effectiveAtkBase mW = 10000 := by
    have h1 : (|mW.rTrue| * mW.effectiveMultiplier * 10000 : ℝ) = ((10000 : ℤ) : ℝ) := by
      show (|(1 : ℝ)| * mW.effectiveMultiplier * 10000 : ℝ) = _
      rw [show mW.effectiveMultiplier = max 0 (1 : ℝ) from rfl]
      norm_num
    show correctionBase mW = 10000
    unfold correctionBase
    rw [h1, pyRound_intCast]
  obtain ⟨w1, w2, w3⟩ := range_restrict_halving mW rfl hbase rfl
  exact ⟨rfl, hbase, rfl, w1, w2, w3⟩

/-- Counterexample to C3: in an active state where the current player has
a 13-card hand and pendingDiscard = 1 (as left by an overflow draw),
legal_actions contains only discard moves, so end_turn is not legal. -/
theorem end_turn_not_always_legal :
    bigHandState.status = .active ∧ Action.end_turn ∉ legal_actions bigHandState := by
  refine ⟨rfl, ?_⟩
  decide

/-- Amended C3: in every active state, end_turn is legal as soon as the
current player has no pending discard, and applying end_turn toggles
currentPlayer between 1 and 2. -/
theorem end_turn_legal_and_toggles (s : GameState) (ha : s.status = .active) :
    ((s.player s.currentPlayer).pendingDiscard ≤ 0 → Action.end_turn ∈ legal_actions s) ∧
    (next_state s .end_turn).currentPlayer = s.currentPlayer.other := by
  have hsf : ¬s.status = .finished := by rw [ha]; simp
  constructor
  · intro hp
    simp only [legal_actions, if_neg hsf, if_neg (not_lt.mpr hp)]
    simp
  · simp only [next_state, if_neg hsf]
    rw [mark_game_over_currentPlayer]
    simp [applyEndTurn, currentPlayer_updatePlayer]

/-- Witness for the amended C3 at a concrete active state. -/
theorem end_turn_legal_and_toggles_witness :
    Action.end_turn ∈ legal_actions activeEmptyState ∧
    (next_state activeEmptyState .end_turn).currentPlayer = Pl.P2 :=
  ⟨(end_turn_legal_and_toggles activeEmptyState rfl).1 (by decide),
   (end_turn_legal_and_toggles activeEmptyState rfl).2⟩

/-- Counterexample to C4: missing_data played at one's own two-card
construct stack legally, yet the whole stack is destroyed (the slot
becomes empty) instead of losing exactly one card. -/
theorem missing_data_two_card_stack_destroyed :
    Action.play_spell 0 .me .construct 0 ∈ legal_actions twoCardStackState ∧
    ((twoCardStackState.player .P1).constructs.get 0).map (fun st => st.cards.length) = some 2 ∧
    ((next_state twoCardStackState (.play_spell 0 .me .construct 0)).player .P1).constructs.get 0
      = none := by
  refine ⟨by decide, rfl, rfl⟩

/-- Amended C4: playing missing_data at a non-empty construct stack (any
owner, any stack size) destroys the whole stack: the targeted slot is
empty afterwards.  (The remove-one-card-unless-singleton behaviour
belongs to construct_drift, not missing_data.) -/
theorem missing_data_construct_always_destroys (s : GameState) (h ts : ℕ) (ow : Owner)
    (ha : s.status = .active)
    (hcard : (s.player s.currentPlayer).hand[h]? = some (Card.spell .missing_data))
    (htgt : ((s.player (ownerPid s.currentPlayer ow)).constructs.get ts).isSome) :
    ((next_state s (.play_spell h ow .construct ts)).player
        (ownerPid s.currentPlayer ow)).constructs.get ts = none := by
  have hts : ts < 3 := Slots.lt_of_isSome_get _ _ htgt
  have hsf : ¬s.status = .finished := by rw [ha]; simp
  obtain ⟨st, hst⟩ := Option.isSome_iff_exists.mp htgt
  have hc1 : ((s.updatePlayer s.currentPlayer fun p => { p with hand := p.hand.eraseIdx h }).player
      (ownerPid s.currentPlayer ow)).constructs
      = (s.player (ownerPid s.currentPlayer ow)).constructs := by
    rw [player_updatePlayer]
    by_cases hq : ownerPid s.currentPlayer ow = s.currentPlayer
    · rw [if_pos hq, hq]
    · rw [if_neg hq]
  simp only [next_state, if_neg hsf, hcard]
  rw [mark_game_over_player]
  simp only [applySpell, applySpellC, hc1, hst]
  rw [player_updatePlayer, if_pos rfl]
  exact Slots.get_set_self _ ts none hts

/-- Witness for the amended C4 at the concrete two-card-stack state. -/
theorem missing_data_construct_always_destroys_witness :
    ((next_state twoCardStackState (.play_spell 0 .me .construct 0)).player .P1).constructs.get 0
      = none :=
  missing_data_construct_always_destroys twoCardStackState 0 0 .me rfl rfl rfl

theorem mem_ite_nil {α : Type} {c : Prop} [Decidable c] {l : List α} {x : α} :
    (x ∈ if c then l else []) ↔ c ∧ x ∈ l := by
  by_cases h : c <;> simp [h]

theorem mem_discardMoves (p : Player) (a : Action) (hmem : a ∈ discardMoves p) :
    ∃ h', h' < p.hand.length ∧ a = .discard_card h' := by
  unfold discardMoves at hmem
  rw [List.mem_map] at hmem
  obtain ⟨h', hh', heq⟩ := hmem
  exact ⟨h', List.mem_range.mp hh', heq.symm⟩

theorem mem_cardMoves (s : GameState) (pid : Pl) (h' : ℕ) (c : Card) (a : Action)
    (hmem : a ∈ cardMoves s pid h' c) :
    (∃ slot cid cat nm sh r, slot < 3 ∧ c = .item cid cat nm sh r ∧
      ((s.player pid).constructs.get slot = none ∨
        ∃ st, (s.player pid).constructs.get slot = some st ∧ st.constructId = cid ∧
          st.cards.length < 3) ∧
      a = .place_card h' slot) ∨
    (∃ ow tt ts cid, ts < 3 ∧ c = .spell cid ∧ a = .play_spell h' ow tt ts) := by
  cases c with
  | item cid cat nm sh r =>
    left
    unfold cardMoves at hmem
    rw [List.mem_filterMap] at hmem
    obtain ⟨slot, hslot, heq⟩ := hmem
    rw [List.mem_range] at hslot
    split at heq
    · rename_i hg
      rw [Option.some.injEq] at heq
      exact ⟨slot, cid, cat, nm, sh, r, hslot, rfl, Or.inl hg, heq.symm⟩
    · rename_i st hg
      split_ifs at heq with hcond
      rw [Option.some.injEq] at heq
      exact ⟨slot, cid, cat, nm, sh, r, hslot, rfl,
        Or.inr ⟨st, hg, hcond.1, hcond.2⟩, heq.symm⟩
  | spell cid =>
    right
    unfold cardMoves at hmem
    rw [List.mem_append] at hmem
    rcases hmem with hmem | hmem <;>
    · rw [mem_ite_nil] at hmem
      obtain ⟨-, hmem⟩ := hmem
      rw [List.mem_flatMap] at hmem
      obtain ⟨ow, -, hmem⟩ := hmem
      rw [List.mem_filterMap] at hmem
      obtain ⟨ts, hts, heq⟩ := hmem
      rw [List.mem_range] at hts
      split_ifs at heq
      rw [Option.some.injEq] at heq
      exact ⟨ow, _, ts, cid, hts, rfl, heq.symm⟩

theorem mem_summonMoves (p : Player) (a : Action) (hmem : a ∈ summonMoves p) :
    ∃ ps os rep, ps < 3 ∧ os < 3 ∧ (rep = none ∨ ∃ rr, rr < 3 ∧ rep = some rr) ∧
      a = .summon ps os rep := by
  unfold summonMoves at hmem
  split_ifs at hmem with hs
  · simp at hmem
  · rw [List.mem_flatMap] at hmem
    obtain ⟨ps, hps, hmem⟩ := hmem
    rw [List.mem_range] at hps
    rw [List.mem_flatMap] at hmem
    obtain ⟨os, hos, hmem⟩ := hmem
    rw [List.mem_range] at hos
    cases hf : firstEmptySlot p.monsters with
    | some i =>
      rw [hf] at hmem
      rw [List.mem_singleton] at hmem
      exact ⟨ps, os, none, hps, hos, Or.inl rfl, hmem⟩
    | none =>
      rw [hf] at hmem
      rw [List.mem_filterMap] at hmem
      obtain ⟨rr, hrr, heq⟩ := hmem
      rw [List.mem_range] at hrr
      split_ifs at heq
      rw [Option.some.injEq] at heq
      exact ⟨ps, os, some rr, hps, hos, Or.inr ⟨rr, hrr, rfl⟩, heq.symm⟩

theorem mem_attackMoves (s : GameState) (pid : Pl) (a : Action) (hmem : a ∈ attackMoves s pid) :
    ∃ aslot t, aslot < 3 ∧ (t = .lp ∨ ∃ ts, ts < 3 ∧ t = .monster ts) ∧
      a = .attack aslot t := by
  simp only [attackMoves] at hmem
  rw [List.mem_flatMap] at hmem
  obtain ⟨aslot, ha3, hmem⟩ := hmem
  rw [List.mem_range] at ha3
  by_cases hcan : canMonsterAttack ((s.player pid).monsters.get aslot) = true
  · rw [if_pos hcan, List.mem_append] at hmem
    rcases hmem with hmem | hmem
    · rw [mem_ite_nil] at hmem
      obtain ⟨-, hmem⟩ := hmem
      rw [List.mem_singleton] at hmem
      exact ⟨aslot, .lp, ha3, Or.inl rfl, hmem⟩
    · rw [List.mem_filterMap] at hmem
      obtain ⟨ts, hts, heq⟩ := hmem
      rw [List.mem_range] at hts
      split_ifs at heq
      rw [Option.some.injEq] at heq
      exact ⟨aslot, .monster ts, ha3, Or.inr ⟨ts, hts, rfl⟩, heq.symm⟩
  · rw [if_neg hcan] at hmem
    simp at hmem

/-- Inversion of legal-action membership: every member of legal_actions
comes from one of the enumeration clauses, with the guards and index
bounds that clause imposes. -/
theorem legal_cases (s : GameState) (a : Action) (hmem : a ∈ legal_actions s) :
    s.status = .active ∧
    ((0 < (s.player s.currentPlayer).pendingDiscard ∧
        ∃ h', h' < (s.player s.currentPlayer).hand.length ∧ a = .discard_card h') ∨
      ((s.player s.currentPlayer).pendingDiscard ≤ 0 ∧
        ((∃ h' slot cid cat nm sh r,
            h' < (s.player s.currentPlayer).hand.length ∧ slot < 3 ∧
            (s.player s.currentPlayer).hand[h']? = some (.item cid cat nm sh r) ∧
            ((s.player s.currentPlayer).constructs.get slot = none ∨
              ∃ st, (s.player s.currentPlayer).constructs.get slot = some st ∧
                st.constructId = cid ∧ st.cards.length < 3) ∧
            a = .place_card h' slot) ∨
          (∃ h' ow tt ts cid, h' < (s.player s.currentPlayer).hand.length ∧ ts < 3 ∧
            (s.player s.currentPlayer).hand[h']? = some (.spell cid) ∧
            a = .play_spell h' ow tt ts) ∨
          (a = .experience_draw ∧
            EXPERIENCE_MISS_THRESHOLD ≤ (s.player s.currentPlayer).experienceTokens ∧
            (s.player s.currentPlayer).deck ≠ []) ∨
          (∃ ps os rep, ps < 3 ∧ os < 3 ∧
            (rep = none ∨ ∃ rr, rr < 3 ∧ rep = some rr) ∧ a = .summon ps os rep) ∨
          a = .meta ∨
          (∃ aslot t, aslot < 3 ∧ (t = .lp ∨ ∃ ts, ts < 3 ∧ t = .monster ts) ∧
            a = .attack aslot t) ∨
          a = .end_turn))) := by
  by_cases hsf : s.status = .finished
  · unfold legal_actions at hmem
    rw [if_pos hsf] at hmem
    simp at hmem
  have ha : s.status = .active := by
    cases hs : s.status
    · rfl
    · exact absurd hs hsf
  refine ⟨ha, ?_⟩
  simp only [legal_actions] at hmem
  rw [if_neg hsf] at hmem
  by_cases hp : 0 < (s.player s.currentPlayer).pendingDiscard
  · rw [if_pos hp] at hmem
    exact Or.inl ⟨hp, mem_discardMoves _ _ hmem⟩
  · rw [if_neg hp] at hmem
    refine Or.inr ⟨by omega, ?_⟩
    rw [List.mem_append] at hmem
    rcases hmem with hmem | hend
    swap
    · exact Or.inr (Or.inr (Or.inr (Or.inr (Or.inr (Or.inr (List.mem_singleton.mp hend))))))
    rw [List.mem_append] at hmem
    rcases hmem with hmem | hatk
    swap
    · exact Or.inr (Or.inr (Or.inr (Or.inr (Or.inr (Or.inl (mem_attackMoves _ _ _ hatk))))))
    rw [List.mem_append] at hmem
    rcases hmem with hmem | hmeta
    swap
    · rw [mem_ite_nil] at hmeta
      exact Or.inr (Or.inr (Or.inr (Or.inr (Or.inl (List.mem_singleton.mp hmeta.2)))))
    rw [List.mem_append] at hmem
    rcases hmem with hmem | hsum
    swap
    · exact Or.inr (Or.inr (Or.inr (Or.inl (mem_summonMoves _ _ hsum))))
    rw [List.mem_append] at hmem
    rcases hmem with hhand | hxd
    swap
    · rw [mem_ite_nil] at hxd
      obtain ⟨⟨htok, hdeck⟩, hxd⟩ := hxd
      exact Or.inr (Or.inr (Or.inl
        ⟨List.mem_singleton.mp hxd, htok, List.length_pos.mp hdeck⟩))
    rw [List.mem_flatMap] at hhand
    obtain ⟨h', hh', hhand⟩ := hhand
    rw [List.mem_range] at hh'
    cases hc : (s.player s.currentPlayer).hand[h']? with
    | none => rw [hc] at hhand; simp at hhand
    | some c =>
      rw [hc] at hhand
      rcases mem_cardMoves _ _ _ _ _ hhand with
        ⟨slot, cid, cat, nm, sh, r, hslot, hcard, hcond, haeq⟩ | ⟨ow, tt, ts, cid, hts, hcard, haeq⟩
      · subst hcard
        exact Or.inl ⟨h', slot, cid, cat, nm, sh, r, hh', hslot, hc, hcond, haeq⟩
      · subst hcard
        exact Or.inr (Or.inl ⟨h', ow, tt, ts, cid, hh', hts, hc, haeq⟩)

theorem asa_discard (h : ℕ) (hh : h < 12) : Action.discard_card h ∈ actionSpaceActions := by
  unfold actionSpaceActions
  refine List.mem_append.mpr (Or.inl (List.mem_append.mpr (Or.inl (List.mem_append.mpr (Or.inr ?_)))))
  refine List.mem_flatMap.mpr ⟨h, List.mem_range.mpr hh, ?_⟩
  exact List.mem_append.mpr (Or.inl (List.mem_append.mpr (Or.inl (List.mem_singleton.mpr rfl))))

theorem asa_place (h slot : ℕ) (hh : h < 12) (hs : slot < 3) :
    Action.place_card h slot ∈ actionSpaceActions := by
  unfold actionSpaceActions
  refine List.mem_append.mpr (Or.inl (List.mem_append.mpr (Or.inl (List.mem_append.mpr (Or.inr ?_)))))
  refine List.mem_flatMap.mpr ⟨h, List.mem_range.mpr hh, ?_⟩
  refine List.mem_append.mpr (Or.inl (List.mem_append.mpr (Or.inr ?_)))
  exact List.mem_map.mpr ⟨slot, List.mem_range.mpr hs, rfl⟩

theorem asa_play_spell (h : ℕ) (ow : Owner) (tt : TType) (ts : ℕ) (hh : h < 12) (hts : ts < 3) :
    Action.play_spell h ow tt ts ∈ actionSpaceActions := by
  unfold actionSpaceActions
  refine List.mem_append.mpr (Or.inl (List.mem_append.mpr (Or.inl (List.mem_append.mpr (Or.inr ?_)))))
  refine List.mem_flatMap.mpr ⟨h, List.mem_range.mpr hh, ?_⟩
  refine List.mem_append.mpr (Or.inr ?_)
  refine List.mem_flatMap.mpr ⟨ow, by cases ow <;> simp, ?_⟩
  refine List.mem_flatMap.mpr ⟨ts, List.mem_range.mpr hts, ?_⟩
  cases tt <;> simp

theorem asa_summon (ps os : ℕ) (rep : Option ℕ) (hps : ps < 3) (hos : os < 3)
    (hrep : ∀ rr ∈ rep, rr < 3) : Action.summon ps os rep ∈ actionSpaceActions := by
  unfold actionSpaceActions
  refine List.mem_append.mpr (Or.inl (List.mem_append.mpr (Or.inr ?_)))
  refine List.mem_flatMap.mpr ⟨ps, List.mem_range.mpr hps, ?_⟩
  refine List.mem_flatMap.mpr ⟨os, List.mem_range.mpr hos, ?_⟩
  cases rep with
  | none => exact List.mem_cons_self _ _
  | some rr =>
    refine List.mem_cons_of_mem _ ?_
    exact List.mem_map.mpr ⟨rr, List.mem_range.mpr (hrep rr rfl), rfl⟩

theorem asa_attack (aslot : ℕ) (t : ATarget) (h3 : aslot < 3)
    (ht : ∀ ts, t = .monster ts → ts < 3) : Action.attack aslot t ∈ actionSpaceActions := by
  unfold actionSpaceActions
  refine List.mem_append.mpr (Or.inr ?_)
  refine List.mem_flatMap.mpr ⟨aslot, List.mem_range.mpr h3, ?_⟩
  cases t with
  | lp => exact List.mem_cons_self _ _
  | monster ts =>
    refine List.mem_cons_of_mem _ ?_
    exact List.mem_map.mpr ⟨ts, List.mem_range.mpr (ht ts rfl), rfl⟩

/-- Counterexample to C1: with a 13-card hand (pendingDiscard = 1),
legal_actions emits discard_card with hand_index 12, which the static
action space never registered (ActionSpace._build stops at
MAX_HAND_SIZE - 1), so ActionSpace.to_id raises KeyError on it. -/
theorem discard_overflow_not_in_actionSpace :
    12 < bigHandState.p1.hand.length ∧
    Action.discard_card 12 ∈ legal_actions bigHandState ∧
    Action.discard_card 12 ∉ actionSpaceActions := by
  exact ⟨by decide, by decide, by decide⟩

/-- Amended C1: every action produced by legal_actions in a state whose
current hand holds at most MAX_HAND_SIZE cards resolves to a registered
key of the static action space.  (In overflowed-hand states, discard
moves with hand_index at least 12 fall outside the space; the trainer
skips such keys.) -/
theorem legal_actions_in_actionSpace (s : GameState) (a : Action)
    (hmem : a ∈ legal_actions s)
    (hhand : (s.player s.currentPlayer).hand.length ≤ MAX_HAND_SIZE) :
    a ∈ actionSpaceActions := by
  unfold MAX_HAND_SIZE at hhand
  obtain ⟨-, hcase⟩ := legal_cases s a hmem
  rcases hcase with ⟨-, h', hlt, rfl⟩ | ⟨-, hshape⟩
  · exact asa_discard h' (by omega)
  rcases hshape with
      ⟨h', slot, cid, cat, nm, sh, r, hh', hslot, -, -, rfl⟩ |
      ⟨h', ow, tt, ts, cid, hh', hts, -, rfl⟩ |
      ⟨rfl, -, -⟩ |
      ⟨ps, os, rep, hps, hos, hrep, rfl⟩ |
      rfl |
      ⟨aslot, t, h3, ht, rfl⟩ |
      rfl
  · exact asa_place h' slot (by omega) hslot
  · exact asa_play_spell h' ow tt ts (by omega) hts
  · exact List.mem_append.mpr (Or.inl (List.mem_append.mpr (Or.inl (List.mem_append.mpr
      (Or.inl (by simp [actionSpaceActions]))))))
  · refine asa_summon ps os rep hps hos ?_
    intro rr hrr
    rcases hrep with rfl | ⟨rr', hrr', rfl⟩
    · simp at hrr
    · rw [Option.mem_def, Option.some.injEq] at hrr
      omega
  · exact List.mem_append.mpr (Or.inl (List.mem_append.mpr (Or.inl (List.mem_append.mpr
      (Or.inl (by simp [actionSpaceActions]))))))
  · refine asa_attack aslot t h3 ?_
    intro ts hts
    rcases ht with rfl | ⟨ts', hts', rfl⟩
    · simp at hts
    · rw [ATarget.monster.injEq] at hts
      omega
  · exact List.mem_append.mpr (Or.inl (List.mem_append.mpr (Or.inl (List.mem_append.mpr
      (Or.inl (by simp [actionSpaceActions]))))))

/-- Witness for the amended C1 at a concrete state with a small hand. -/
theorem legal_actions_in_actionSpace_witness :
    Action.end_turn ∈ legal_actions activeEmptyState ∧
    Action.end_turn ∈ actionSpaceActions :=
  ⟨by decide, legal_actions_in_actionSpace activeEmptyState .end_turn (by decide) (by decide)⟩

/-- Effect of the experience_draw branch of next_state on the acting
player: tokens drop by 4, the hand grows by min(3, |deck|) with overflow
allowed, and pendingDiscard is recomputed as max(0, |hand| - 12). -/
theorem next_experience_draw_spec (s : GameState) (ha : s.status = .active) :
    ((next_state s .experience_draw).player s.currentPlayer).experienceTokens
        = (s.player s.currentPlayer).experienceTokens - 4 ∧
    ((next_state s .experience_draw).player s.currentPlayer).hand.length
        = (s.player s.currentPlayer).hand.length + min 3 (s.player s.currentPlayer).deck.length ∧
    ((next_state s .experience_draw).player s.currentPlayer).pendingDiscard
        = max 0 ((((next_state s .experience_draw).player s.currentPlayer).hand.length : ℤ) - 12) := by
  have hsf : ¬s.status = .finished := by rw [ha]; simp
  simp only [next_state, if_neg hsf]
  rw [mark_game_over_player, player_updatePlayer, if_pos rfl]
  obtain ⟨-, -, -, -, htok, -⟩ := drawCards_stable EXPERIENCE_DRAW_COUNT true
    { s.player s.currentPlayer with
      experienceTokens := (s.player s.currentPlayer).experienceTokens - EXPERIENCE_MISS_THRESHOLD }
  have hlen := drawCards_overflow_length EXPERIENCE_DRAW_COUNT
    { s.player s.currentPlayer with
      experienceTokens := (s.player s.currentPlayer).experienceTokens - EXPERIENCE_MISS_THRESHOLD }
  refine ⟨?_, ?_, ?_⟩
  · simpa [enforceHandLimit, EXPERIENCE_MISS_THRESHOLD] using htok
  · simpa [enforceHandLimit, EXPERIENCE_DRAW_COUNT] using hlen
  · simp [enforceHandLimit, MAX_HAND_SIZE]

/-- C10: the experience_draw transition is unguarded at apply time.  On
every active state it subtracts exactly EXPERIENCE_MISS_THRESHOLD = 4
from the current player's experienceTokens and draws up to 3 cards with
overflow (then recomputes pendingDiscard), regardless of token count or
deck size; in particular on a state with 0 tokens the result is negative.
The tokens >= 4 / non-empty-deck guard exists only in legal_actions. -/
theorem experience_draw_unguarded :
    (∀ s : GameState, s.status = .active →
      ((next_state s .experience_draw).player s.currentPlayer).experienceTokens
          = (s.player s.currentPlayer).experienceTokens - 4 ∧
        ((next_state s .experience_draw).player s.currentPlayer).hand.length
          = (s.player s.currentPlayer).hand.length + min 3 (s.player s.currentPlayer).deck.length ∧
        ((next_state s .experience_draw).player s.currentPlayer).pendingDiscard
          = max 0 ((((next_state s .experience_draw).player s.currentPlayer).hand.length : ℤ) - 12)) ∧
    ((next_state activeEmptyState .experience_draw).player .P1).experienceTokens < 0 ∧
    (∀ s : GameState, Action.experience_draw ∈ legal_actions s →
      4 ≤ (s.player s.currentPlayer).experienceTokens ∧ (s.player s.currentPlayer).deck ≠ []) := by
  refine ⟨fun s ha => next_experience_draw_spec s ha, by decide, ?_⟩
  · intro s hmem
    obtain ⟨-, hcase⟩ := legal_cases s .experience_draw hmem
    rcases hcase with ⟨-, h', -, heq⟩ | ⟨-, hshape⟩
    · exact absurd heq (by simp)
    rcases hshape with ⟨_, _, _, _, _, _, _, _, _, _, _, heq⟩ | ⟨_, _, _, _, _, _, _, _, heq⟩ |
        ⟨-, htok, hdeck⟩ | ⟨_, _, _, _, _, _, heq⟩ | heq | ⟨_, _, _, _, heq⟩ | heq
    · exact absurd heq (by simp)
    · exact absurd heq (by simp)
    · exact ⟨htok, hdeck⟩
    · exact absurd heq (by simp)
    · exact absurd heq (by simp)
    · exact absurd heq (by simp)
    · exact absurd heq (by simp)

/-- Witness for C10 at a concrete active state (0 tokens, empty deck). -/
theorem experience_draw_unguarded_witness :
    activeEmptyState.status = .active ∧
    ((next_state activeEmptyState .experience_draw).player .P1).experienceTokens
      = (activeEmptyState.player .P1).experienceTokens - 4 :=
  ⟨rfl, (experience_draw_unguarded.1 activeEmptyState rfl).1⟩

theorem player_setPlayer (s : GameState) (pid : Pl) (pl : Player) (q : Pl) :
    (s.setPlayer pid pl).player q = if q = pid then pl else s.player q := by
  cases pid <;> cases q <;> simp [GameState.setPlayer, GameState.player]

theorem player_currentPlayer_set (s : GameState) (c : Pl) (q : Pl) :
    (GameState.player { s with currentPlayer := c } q) = s.player q := by
  cases q <;> rfl

theorem updZone_hand_pending (s1 : GameState) (tpid : Pl) (f : Player → Player)
    (hf : ∀ p, (f p).hand = p.hand ∧ (f p).pendingDiscard = p.pendingDiscard) (q : Pl) :
    ((s1.updatePlayer tpid f).player q).hand = (s1.player q).hand ∧
    ((s1.updatePlayer tpid f).player q).pendingDiscard = (s1.player q).pendingDiscard := by
  rw [player_updatePlayer]
  split
  · rename_i h; subst h; exact hf _
  · exact ⟨rfl, rfl⟩

theorem applySpellM_hand_pending (s1 : GameState) (tpid : Pl) (ow : Owner) (cid : SpellId)
    (ts : ℕ) (q : Pl) :
    ((applySpellM s1 tpid ow cid ts).player q).hand = (s1.player q).hand ∧
    ((applySpellM s1 tpid ow cid ts).player q).pendingDiscard
      = (s1.player q).pendingDiscard := by
  unfold applySpellM
  repeat' split
  all_goals simp only [player_updatePlayer]
  all_goals
    first
      | trivial
      | exact ⟨rfl, rfl⟩
      | (split_ifs <;> first | exact ⟨rfl, rfl⟩ | simp_all)

theorem applySpellC_hand_pending (s1 : GameState) (tpid : Pl) (ow : Owner) (cid : SpellId)
    (ts : ℕ) (q : Pl) :
    ((applySpellC s1 tpid ow cid ts).player q).hand = (s1.player q).hand ∧
    ((applySpellC s1 tpid ow cid ts).player q).pendingDiscard
      = (s1.player q).pendingDiscard := by
  unfold applySpellC
  repeat' split
  all_goals simp only [player_updatePlayer]
  all_goals
    first
      | trivial
      | exact ⟨rfl, rfl⟩
      | (split_ifs <;> first | exact ⟨rfl, rfl⟩ | simp_all)

theorem applySpell_hand_pending (s1 : GameState) (pid tpid : Pl) (ow : Owner) (cid : SpellId)
    (tt : TType) (ts : ℕ) (q : Pl) :
    ((applySpell s1 pid tpid ow cid tt ts).player q).hand = (s1.player q).hand ∧
    ((applySpell s1 pid tpid ow cid tt ts).player q).pendingDiscard
      = (s1.player q).pendingDiscard := by
  cases tt
  · exact applySpellM_hand_pending s1 tpid ow cid ts q
  · exact applySpellC_hand_pending s1 tpid ow cid ts q

theorem applySummon_hand_pending (s : GameState) (pid : Pl) (ps os : ℕ) (rep : Option ℕ)
    (q : Pl) :
    ((applySummon s pid ps os rep).player q).hand = (s.player q).hand ∧
    ((applySummon s pid ps os rep).player q).pendingDiscard = (s.player q).pendingDiscard := by
  simp only [applySummon]
  repeat' split
  all_goals simp only [player_setPlayer]
  all_goals
    first
      | trivial
      | exact ⟨rfl, rfl⟩
      | (split_ifs <;> first | exact ⟨rfl, rfl⟩ | simp_all)

theorem applyMeta_hand_pending (s : GameState) (pid : Pl) (q : Pl) :
    ((applyMeta s pid).player q).hand = (s.player q).hand ∧
    ((applyMeta s pid).player q).pendingDiscard = (s.player q).pendingDiscard := by
  unfold applyMeta
  split
  · rw [player_updatePlayer]
    split
    · rename_i h; subst h; exact ⟨rfl, rfl⟩
    · exact ⟨rfl, rfl⟩
  · exact ⟨rfl, rfl⟩

/-- Two states agreeing on every player's hand and pendingDiscard. -/
def SamePH (s t : GameState) : Prop :=
  ∀ q : Pl, (t.player q).hand = (s.player q).hand ∧
    (t.player q).pendingDiscard = (s.player q).pendingDiscard

theorem samePH_refl (s : GameState) : SamePH s s := fun _ => ⟨rfl, rfl⟩

theorem samePH_upd_left (s t : GameState) (pid : Pl) (f : Player → Player)
    (h : SamePH s t)
    (hf : ∀ p, (f p).hand = p.hand ∧ (f p).pendingDiscard = p.pendingDiscard) :
    SamePH s (t.updatePlayer pid f) := by
  intro q
  rw [player_updatePlayer]
  split
  · rename_i hq
    subst hq
    exact ⟨(hf _).1.trans (h q).1, (hf _).2.trans (h q).2⟩
  · exact h q

theorem applyAttack_samePH (s : GameState) (pid : Pl) (aslot : ℕ) (tgt : ATarget) :
    SamePH s (applyAttack s pid aslot tgt) := by
  simp only [applyAttack]
  repeat' split
  all_goals
    repeat'
      first
        | exact samePH_refl _
        | refine samePH_upd_left _ _ _ _ ?_ ?_
  all_goals exact fun p => ⟨rfl, rfl⟩

theorem applyAttack_hand_pending (s : GameState) (pid : Pl) (aslot : ℕ) (tgt : ATarget)
    (q : Pl) :
    ((applyAttack s pid aslot tgt).player q).hand = (s.player q).hand ∧
    ((applyAttack s pid aslot tgt).player q).pendingDiscard = (s.player q).pendingDiscard :=
  applyAttack_samePH s pid aslot tgt q

theorem applyEndTurn_acting_hand_pending (s : GameState) (pid : Pl) :
    ((applyEndTurn s pid).player pid).hand = (s.player pid).hand ∧
    ((applyEndTurn s pid).player pid).pendingDiscard = (s.player pid).pendingDiscard := by
  have hne : pid ≠ pid.other := (Pl.other_ne pid).symm
  unfold applyEndTurn
  rw [player_updatePlayer, if_neg hne, player_updatePlayer, if_neg hne,
    player_currentPlayer_set, player_updatePlayer, if_pos rfl]
  exact ⟨rfl, rfl⟩

theorem length_eraseIdx_le (l : List Card) (i : ℕ) : (l.eraseIdx i).length ≤ l.length := by
  rw [List.length_eraseIdx]
  split <;> omega

/-- Counterexample to C2: from a (reachable-shaped) state with a 14-card
hand and pendingDiscard = 2, the legal action discard_card 0 - which is
not experience_draw - leaves the acting player with 13 > 12 cards. -/
theorem hand_cap_counterexample :
    Action.discard_card 0 ∈ legal_actions overflowState ∧
    Action.discard_card 0 ≠ .experience_draw ∧
    12 < ((next_state overflowState (.discard_card 0)).player
        overflowState.currentPlayer).hand.length :=
  ⟨by decide, by decide, by decide⟩

theorem hand_cap_conclusion_same (s : GameState) (a : Action)
    (hbound : ((s.player s.currentPlayer).hand.length : ℤ)
        ≤ 12 + (s.player s.currentPlayer).pendingDiscard)
    (hh12 : (s.player s.currentPlayer).hand.length ≤ 12)
    (hhand : ((next_state s a).player s.currentPlayer).hand = (s.player s.currentPlayer).hand)
    (hpend : ((next_state s a).player s.currentPlayer).pendingDiscard
        = (s.player s.currentPlayer).pendingDiscard)
    (hxd : a ≠ .experience_draw) :
    ((∀ h', a ≠ .discard_card h') → a ≠ .experience_draw →
       ((next_state s a).player s.currentPlayer).hand.length ≤ 12) ∧
    (((next_state s a).player s.currentPlayer).hand.length : ℤ)
        ≤ 12 + ((next_state s a).player s.currentPlayer).pendingDiscard ∧
    (a = .experience_draw →
       ((next_state s a).player s.currentPlayer).pendingDiscard
         = max 0 ((((next_state s a).player s.currentPlayer).hand.length : ℤ) - 12)) := by
  refine ⟨fun _ _ => ?_, ?_, fun h => absurd h hxd⟩
  · rw [hhand]; exact hh12
  · rw [hhand, hpend]; exact hbound

theorem hand_cap_conclusion_erase (s : GameState) (a : Action) (h' : ℕ)
    (hbound : ((s.player s.currentPlayer).hand.length : ℤ)
        ≤ 12 + (s.player s.currentPlayer).pendingDiscard)
    (hh12 : (s.player s.currentPlayer).hand.length ≤ 12)
    (hhand : ((next_state s a).player s.currentPlayer).hand
        = (s.player s.currentPlayer).hand.eraseIdx h')
    (hpend : ((next_state s a).player s.currentPlayer).pendingDiscard
        = (s.player s.currentPlayer).pendingDiscard)
    (hxd : a ≠ .experience_draw) :
    ((∀ h'', a ≠ .discard_card h'') → a ≠ .experience_draw →
       ((next_state s a).player s.currentPlayer).hand.length ≤ 12) ∧
    (((next_state s a).player s.currentPlayer).hand.length : ℤ)
        ≤ 12 + ((next_state s a).player s.currentPlayer).pendingDiscard ∧
    (a = .experience_draw →
       ((next_state s a).player s.currentPlayer).pendingDiscard
         = max 0 ((((next_state s a).player s.currentPlayer).hand.length : ℤ) - 12)) := by
  have hle := length_eraseIdx_le (s.player s.currentPlayer).hand h'
  refine ⟨fun _ _ => ?_, ?_, fun h => absurd h hxd⟩
  · rw [hhand]; omega
  · rw [hhand, hpend]
    omega

/-- Amended C2: in any state whose acting player satisfies
|hand| ≤ 12 + pendingDiscard (an invariant of all engine-produced
states), every legal action other than experience_draw and discard_card
leaves the acting player's hand at most 12; discard_card preserves the
bound |hand| ≤ 12 + pendingDiscard (the hand can still exceed 12 while
discarding down); and after experience_draw, pendingDiscard equals
max(0, |hand| - 12), hence |hand| - 12 whenever that is positive. -/
theorem hand_cap_amended (s : GameState) (a : Action)
    (hmem : a ∈ legal_actions s)
    (hbound : ((s.player s.currentPlayer).hand.length : ℤ)
        ≤ 12 + (s.player s.currentPlayer).pendingDiscard) :
    ((∀ h', a ≠ .discard_card h') → a ≠ .experience_draw →
       ((next_state s a).player s.currentPlayer).hand.length ≤ 12) ∧
    (((next_state s a).player s.currentPlayer).hand.length : ℤ)
        ≤ 12 + ((next_state s a).player s.currentPlayer).pendingDiscard ∧
    (a = .experience_draw →
       ((next_state s a).player s.currentPlayer).pendingDiscard
         = max 0 ((((next_state s a).player s.currentPlayer).hand.length : ℤ) - 12)) := by
  obtain ⟨ha, hcase⟩ := legal_cases s a hmem
  have hsf : ¬s.status = .finished := by rw [ha]; simp
  rcases hcase with ⟨hp, h', hlt, rfl⟩ | ⟨hple, hshape⟩
  · -- discard_card while pendingDiscard > 0
    have hstep : ((next_state s (.discard_card h')).player s.currentPlayer).hand
          = (s.player s.currentPlayer).hand.eraseIdx h' ∧
        ((next_state s (.discard_card h')).player s.currentPlayer).pendingDiscard
          = max 0 ((s.player s.currentPlayer).pendingDiscard - 1) := by
      simp only [next_state, if_neg hsf]
      rw [mark_game_over_player, player_updatePlayer, if_pos rfl]
      simp only [hlt, if_true]
      constructor <;> first | rfl | trivial
    obtain ⟨hhand, hpend⟩ := hstep
    refine ⟨fun hne _ => absurd rfl (hne h'), ?_, fun h => absurd h (by simp)⟩
    rw [hhand, hpend]
    have h1 : ((s.player s.currentPlayer).hand.eraseIdx h').length
        = (s.player s.currentPlayer).hand.length - 1 := by
      simp [List.length_eraseIdx, hlt]
    rw [h1]
    have h2 : (s.player s.currentPlayer).pendingDiscard - 1
        ≤ max 0 ((s.player s.currentPlayer).pendingDiscard - 1) := le_max_right _ _
    omega
  · have hh12 : (s.player s.currentPlayer).hand.length ≤ 12 := by omega
    rcases hshape with
        ⟨h', slot, cid, cat, nm, sh, r, hh', hslot, hc, hcond, rfl⟩ |
        ⟨h', ow, tt, ts, cid, hh', hts, hc, rfl⟩ |
        ⟨rfl, htok, hdeck⟩ |
        ⟨ps, os, rep, hps, hos, hrep, rfl⟩ |
        rfl |
        ⟨aslot, t, h3, ht, rfl⟩ |
        rfl
    · -- place_card
      refine hand_cap_conclusion_erase s _ h' hbound hh12 ?_ ?_ (by simp) <;>
      · simp only [next_state, if_neg hsf, hc]
        rw [mark_game_over_player, player_updatePlayer, if_pos rfl]
    · -- play_spell
      have hs1h : ((s.updatePlayer s.currentPlayer fun p =>
            { p with hand := p.hand.eraseIdx h' }).player s.currentPlayer).hand
          = (s.player s.currentPlayer).hand.eraseIdx h' := by
        rw [player_updatePlayer, if_pos rfl]
      have hs1p : ((s.updatePlayer s.currentPlayer fun p =>
            { p with hand := p.hand.eraseIdx h' }).player s.currentPlayer).pendingDiscard
          = (s.player s.currentPlayer).pendingDiscard := by
        rw [player_updatePlayer, if_pos rfl]
      refine hand_cap_conclusion_erase s _ h' hbound hh12 ?_ ?_ (by simp)
      · simp only [next_state, if_neg hsf, hc]
        rw [mark_game_over_player]
        rw [(applySpell_hand_pending _ s.currentPlayer (ownerPid s.currentPlayer ow) ow cid tt ts
          s.currentPlayer).1, hs1h]
      · simp only [next_state, if_neg hsf, hc]
        rw [mark_game_over_player]
        rw [(applySpell_hand_pending _ s.currentPlayer (ownerPid s.currentPlayer ow) ow cid tt ts
          s.currentPlayer).2, hs1p]
    · -- experience_draw
      obtain ⟨-, -, hpend⟩ := next_experience_draw_spec s ha
      refine ⟨fun _ hne => absurd rfl hne, ?_, fun _ => hpend⟩
      rw [hpend]
      have h2 : (((next_state s .experience_draw).player s.currentPlayer).hand.length : ℤ) - 12
          ≤ max 0 ((((next_state s .experience_draw).player s.currentPlayer).hand.length : ℤ) - 12) :=
        le_max_right _ _
      omega
    · -- summon
      refine hand_cap_conclusion_same s _ hbound hh12 ?_ ?_ (by simp)
      · simp only [next_state, if_neg hsf]
        rw [mark_game_over_player]
        exact (applySummon_hand_pending s s.currentPlayer ps os rep s.currentPlayer).1
      · simp only [next_state, if_neg hsf]
        rw [mark_game_over_player]
        exact (applySummon_hand_pending s s.currentPlayer ps os rep s.currentPlayer).2
    · -- meta
      refine hand_cap_conclusion_same s _ hbound hh12 ?_ ?_ (by simp)
      · simp only [next_state, if_neg hsf]
        rw [mark_game_over_player]
        exact (applyMeta_hand_pending s s.currentPlayer s.currentPlayer).1
      · simp only [next_state, if_neg hsf]
        rw [mark_game_over_player]
        exact (applyMeta_hand_pending s s.currentPlayer s.currentPlayer).2
    · -- attack
      refine hand_cap_conclusion_same s _ hbound hh12 ?_ ?_ (by simp)
      · simp only [next_state, if_neg hsf]
        rw [mark_game_over_player]
        exact (applyAttack_hand_pending s s.currentPlayer aslot t s.currentPlayer).1
      · simp only [next_state, if_neg hsf]
        rw [mark_game_over_player]
        exact (applyAttack_hand_pending s s.currentPlayer aslot t s.currentPlayer).2
    · -- end_turn
      refine hand_cap_conclusion_same s _ hbound hh12 ?_ ?_ (by simp)
      · simp only [next_state, if_neg hsf]
        rw [mark_game_over_player]
        exact (applyEndTurn_acting_hand_pending s s.currentPlayer).1
      · simp only [next_state, if_neg hsf]
        rw [mark_game_over_player]
        exact (applyEndTurn_acting_hand_pending s s.currentPlayer).2

/-- Witness for the amended C2 at a concrete state. -/
theorem hand_cap_amended_witness :
    Action.end_turn ∈ legal_actions activeEmptyState ∧
    ((next_state activeEmptyState .end_turn).player
        activeEmptyState.currentPlayer).hand.length ≤ 12 :=
  ⟨by decide,
   (hand_cap_amended activeEmptyState .end_turn (by decide) (by decide)).1
     (fun _ => by simp) (by simp)⟩

theorem playFrom_stop (pick : ℕ → GameState → Action) :
    ∀ (fuel maxMoves m : ℕ) (s : GameState), maxMoves - m = fuel → m ≤ maxMoves →
      ¬is_terminal (playFrom pick maxMoves s m).1 →
      (playFrom pick maxMoves s m).2 = maxMoves := by
  intro fuel
  induction fuel with
  | zero =>
    intro maxMoves m s hf hm hterm
    rw [playFrom, dif_pos (Or.inr (by omega : maxMoves ≤ m))]
    show m = maxMoves
    omega
  | succ fuel ih =>
    intro maxMoves m s hf hm hterm
    rw [playFrom] at hterm ⊢
    by_cases hstop : is_terminal s ∨ maxMoves ≤ m
    · rw [dif_pos hstop] at hterm ⊢
      rcases hstop with hstop | hstop
      · exact absurd hstop hterm
      · show m = maxMoves
        omega
    · rw [dif_neg hstop] at hterm ⊢
      rw [not_or, not_le] at hstop
      exact ih maxMoves (m + 1) _ (by omega) (by omega) hterm

/-- C9: both self_play_episode and play_match record the winner the same
way: when the game loop stops at a terminal state, the recorded winner is
the engine's winner field; when it instead stops non-terminally (which
happens exactly by reaching the maxGameMoves bound), the recorded winner
is player 1 if p1's lp is at least p2's lp, and player 2 otherwise (ties
favor player 1). -/
theorem episode_winner_spec (pick : ℕ → GameState → Action) (maxMoves : ℕ) :
    (is_terminal (playFrom pick maxMoves initial_state 0).1 →
      selfPlayEpisodeWinner pick maxMoves = (playFrom pick maxMoves initial_state 0).1.winner ∧
      playMatchWinner pick maxMoves = (playFrom pick maxMoves initial_state 0).1.winner) ∧
    (¬is_terminal (playFrom pick maxMoves initial_state 0).1 →
      (playFrom pick maxMoves initial_state 0).2 = maxMoves ∧
      selfPlayEpisodeWinner pick maxMoves
        = some (if ((playFrom pick maxMoves initial_state 0).1.player .P2).lp
              ≤ ((playFrom pick maxMoves initial_state 0).1.player .P1).lp
            then Pl.P1 else Pl.P2) ∧
      playMatchWinner pick maxMoves
        = some (if ((playFrom pick maxMoves initial_state 0).1.player .P2).lp
              ≤ ((playFrom pick maxMoves initial_state 0).1.player .P1).lp
            then Pl.P1 else Pl.P2)) := by
  constructor
  · intro hterm
    constructor
    · simp only [selfPlayEpisodeWinner]
      rw [if_pos hterm]
    · simp only [playMatchWinner]
      rw [if_pos hterm]
  · intro hterm
    refine ⟨playFrom_stop pick maxMoves maxMoves 0 initial_state (by omega) (by omega) hterm,
      ?_, ?_⟩
    · simp only [selfPlayEpisodeWinner]
      rw [if_neg hterm]
      rfl
    · simp only [playMatchWinner]
      rw [if_neg hterm]
      rfl

/-- Witness for C9: with a zero move budget the loop stops non-terminally
at the initial state and the lp tiebreak awards player 1. -/
theorem episode_winner_spec_witness :
    ¬is_terminal ((playFrom (fun _ _ => Action.end_turn) 0 initial_state 0).1) ∧
    selfPlayEpisodeWinner (fun _ _ => Action.end_turn) 0 = some Pl.P1 := by
  have h0 : playFrom (fun _ _ => Action.end_turn) 0 initial_state 0 = (initial_state, 0) := by
    rw [playFrom, dif_pos (Or.inr (le_refl 0))]
  have hterm : ¬is_terminal ((playFrom (fun _ _ => Action.end_turn) 0 initial_state 0).1) := by
    rw [h0]
    decide
  refine ⟨hterm, ?_⟩
  obtain ⟨-, hw, -⟩ := (episode_winner_spec (fun _ _ => Action.end_turn) 0).2 hterm
  rw [hw, h0]
  decide

/-- Well-formed card: an item card's stored category agrees with the
CONSTRUCTS table for its construct id (all cards the engine creates are
built by makeItemCard / makeSpellCard, which guarantee this). -/
def WFCard : Card → Prop
  | .item cid cat _ _ _ => cat = (CONSTRUCTS cid).cat
  | .spell _ => True

/-- Well-formed construct stack: category matches the construct id's
category, 1 to 3 cards, and every card is an item card of the stack's
construct id. -/
def StackWF (st : Stack) : Prop :=
  st.cat = (CONSTRUCTS st.constructId).cat ∧
  1 ≤ st.cards.length ∧ st.cards.length ≤ 3 ∧
  ∀ c ∈ st.cards, c.constructId? = some st.constructId

/-- Well-formed player zone: deck and hand cards are well formed and every
present construct stack is well formed. -/
def PlayerWF (p : Player) : Prop :=
  (∀ c ∈ p.hand, WFCard c) ∧ (∀ c ∈ p.deck, WFCard c) ∧
  (∀ i st, p.constructs.get i = some st → StackWF st)

/-- The state invariant maintained by the engine. -/
def Inv (s : GameState) : Prop := ∀ q : Pl, PlayerWF (s.player q)

/-- States reachable from initial_state by legal actions. -/
inductive Reachable : GameState → Prop
  | init : Reachable initial_state
  | step {s : GameState} {a : Action} : Reachable s → a ∈ legal_actions s →
      Reachable (next_state s a)

/-- The construct-stack invariant claimed by the specification. -/
def StackInvariant (S : GameState) : Prop :=
  ∀ q : Pl, ∀ i st, (S.player q).constructs.get i = some st →
    1 ≤ st.cards.length ∧ st.cards.length ≤ 3 ∧
    (∀ c ∈ st.cards, c.constructId? = some st.constructId) ∧
    st.cat = (CONSTRUCTS st.constructId).cat

theorem WFCard_makeItemCard (cid : CId) : WFCard (makeItemCard cid) := rfl

theorem wf_buildStartingDeck : ∀ c ∈ buildStartingDeck, WFCard c := by
  intro c hc
  simp only [buildStartingDeck, List.mem_append, List.mem_replicate] at hc
  repeat' (rcases hc with hc | hc)
  all_goals obtain ⟨-, rfl⟩ := hc
  all_goals first
    | exact WFCard_makeItemCard _
    | trivial

theorem Slots.empty_get {α : Type} (i : ℕ) : (Slots.empty : Slots α).get i = none := by
  rcases i with _ | _ | _ | i <;> rfl

theorem Inv_initial : Inv initial_state := by
  intro q
  have base : PlayerWF (drawCards
      { lp := 8000, deck := buildStartingDeck, hand := [], constructs := Slots.empty
        monsters := Slots.empty, summoned := false, experienceTokens := 0, pendingDiscard := 0 }
      STARTING_HAND_SIZE false) := by
    set p0 : Player :=
      { lp := 8000, deck := buildStartingDeck, hand := [], constructs := Slots.empty
        monsters := Slots.empty, summoned := false, experienceTokens := 0
        pendingDiscard := 0 } with hp0
    obtain ⟨hmh, hmd⟩ := drawCards_mem STARTING_HAND_SIZE false p0
    obtain ⟨-, hcs, -, -, -, -⟩ := drawCards_stable STARTING_HAND_SIZE false p0
    refine ⟨?_, ?_, ?_⟩
    · intro c hc
      rcases hmh c hc with h | h
      · simp [hp0] at h
      · exact wf_buildStartingDeck c h
    · intro c hc
      exact wf_buildStartingDeck c (hmd c hc)
    · intro i st hst
      rw [hcs] at hst
      rw [Slots.empty_get] at hst
      exact absurd hst (by simp)
  cases q <;> exact base

theorem Slots.set_oob {α : Type} (z : Slots α) (n : ℕ) (v : Option α) (h : 3 ≤ n) :
    z.set n v = z := by
  rcases n with _ | _ | _ | n <;> first | omega | rfl

theorem get_set_cases {α : Type} (z : Slots α) (ts i : ℕ) (v : Option α) (st : α)
    (h : (z.set ts v).get i = some st) :
    (i = ts ∧ ts < 3 ∧ v = some st) ∨ z.get i = some st := by
  by_cases h3 : ts < 3
  · by_cases hi : i = ts
    · subst hi
      rw [Slots.get_set_self _ _ _ h3] at h
      exact Or.inl ⟨rfl, h3, h⟩
    · rw [Slots.get_set_of_ne _ _ _ _ hi] at h
      exact Or.inr h
  · rw [Slots.set_oob _ _ _ (by omega)] at h
    exact Or.inr h

theorem PlayerWF_congr (p p' : Player) (h1 : p'.hand = p.hand) (h2 : p'.deck = p.deck)
    (h3 : p'.constructs = p.constructs) (hw : PlayerWF p) : PlayerWF p' := by
  obtain ⟨a, b, c⟩ := hw
  refine ⟨?_, ?_, ?_⟩
  · rw [h1]; exact a
  · rw [h2]; exact b
  · rw [h3]; exact c

theorem Inv_updatePlayer (s : GameState) (pid : Pl) (f : Player → Player)
    (hInv : Inv s) (hf : PlayerWF (s.player pid) → PlayerWF (f (s.player pid))) :
    Inv (s.updatePlayer pid f) := by
  intro q
  rw [player_updatePlayer]
  split
  · exact hf (hInv pid)
  · exact hInv q

theorem Inv_setPlayer (s : GameState) (pid : Pl) (P : Player)
    (hInv : Inv s) (hP : PlayerWF P) : Inv (s.setPlayer pid P) := by
  intro q
  rw [player_setPlayer]
  split
  · exact hP
  · exact hInv q

theorem Inv_mark (s : GameState) (h : Inv s) : Inv (mark_game_over s) := by
  intro q
  rw [show (mark_game_over s).player q = s.player q from mark_game_over_player s q]
  exact h q

/-- Two states agreeing on every player's hand, deck and constructs. -/
def SameHDC (s t : GameState) : Prop :=
  ∀ q : Pl, (t.player q).hand = (s.player q).hand ∧ (t.player q).deck = (s.player q).deck ∧
    (t.player q).constructs = (s.player q).constructs

theorem sameHDC_refl (s : GameState) : SameHDC s s := fun _ => ⟨rfl, rfl, rfl⟩

theorem sameHDC_upd_left (s t : GameState) (pid : Pl) (f : Player → Player)
    (h : SameHDC s t)
    (hf : ∀ p, (f p).hand = p.hand ∧ (f p).deck = p.deck ∧ (f p).constructs = p.constructs) :
    SameHDC s (t.updatePlayer pid f) := by
  intro q
  rw [player_updatePlayer]
  split
  · rename_i hq
    subst hq
    exact ⟨(hf _).1.trans (h q).1, (hf _).2.1.trans (h q).2.1, (hf _).2.2.trans (h q).2.2⟩
  · exact h q

theorem applyAttack_sameHDC (s : GameState) (pid : Pl) (aslot : ℕ) (tgt : ATarget) :
    SameHDC s (applyAttack s pid aslot tgt) := by
  simp only [applyAttack]
  repeat' split
  all_goals
    repeat'
      first
        | exact sameHDC_refl _
        | refine sameHDC_upd_left _ _ _ _ ?_ ?_
  all_goals exact fun p => ⟨rfl, rfl, rfl⟩

theorem applyMeta_sameHDC (s : GameState) (pid : Pl) : SameHDC s (applyMeta s pid) := by
  simp only [applyMeta]
  split
  · refine sameHDC_upd_left _ _ _ _ (sameHDC_refl s) ?_
    exact fun p => ⟨rfl, rfl, rfl⟩
  · exact sameHDC_refl _

theorem Inv_of_sameHDC (s t : GameState) (h : SameHDC s t) (hi : Inv s) : Inv t :=
  fun q => PlayerWF_congr _ _ (h q).1 (h q).2.1 (h q).2.2 (hi q)

theorem PlayerWF_drawCards (p : Player) (n : ℕ) (o : Bool) (hw : PlayerWF p) :
    PlayerWF (drawCards p n o) := by
  obtain ⟨hmh, hmd⟩ := drawCards_mem n o p
  obtain ⟨-, hcs, -, -, -, -⟩ := drawCards_stable n o p
  refine ⟨?_, ?_, ?_⟩
  · intro c hc
    rcases hmh c hc with h | h
    · exact hw.1 c h
    · exact hw.2.1 c h
  · intro c hc
    exact hw.2.1 c (hmd c hc)
  · intro i st hst
    rw [hcs] at hst
    exact hw.2.2 i st hst

theorem PlayerWF_enforceHandLimit (p : Player) (hw : PlayerWF p) :
    PlayerWF (enforceHandLimit p) :=
  PlayerWF_congr p _ rfl rfl rfl hw

theorem mem_of_getLastQ {α : Type} {l : List α} {a : α} (h : l.getLast? = some a) : a ∈ l := by
  rw [List.getLast?_eq_some_iff] at h
  obtain ⟨l', rfl⟩ := h
  simp

theorem setC_Inv (s1 : GameState) (tpid : Pl) (ts : ℕ) (v : Option Stack)
    (hInv : Inv s1) (hv : ∀ st', v = some st' → StackWF st') :
    Inv (s1.updatePlayer tpid fun p => { p with constructs := p.constructs.set ts v }) := by
  refine Inv_updatePlayer _ _ _ hInv (fun hw => ⟨hw.1, hw.2.1, ?_⟩)
  intro i st' hst'
  rcases get_set_cases _ _ _ _ _ hst' with ⟨-, -, hveq⟩ | hold
  · exact hv st' hveq
  · exact hw.2.2 i st' hold

theorem applySpellM_Inv (s1 : GameState) (tpid : Pl) (ow : Owner) (cid : SpellId)
    (ts : ℕ) (hInv : Inv s1) : Inv (applySpellM s1 tpid ow cid ts) := by
  unfold applySpellM
  repeat' split
  all_goals first
    | exact hInv
    | exact Inv_updatePlayer _ _ _ hInv (fun hw => PlayerWF_congr _ _ rfl rfl rfl hw)

theorem applySpellC_Inv (s1 : GameState) (tpid : Pl) (ow : Owner) (cid : SpellId)
    (ts : ℕ) (hInv : Inv s1) : Inv (applySpellC s1 tpid ow cid ts) := by
  unfold applySpellC
  split
  · exact hInv
  · rename_i xopt st heq;
    obtain ⟨w1, w2, w3, w4⟩ := (hInv tpid).2.2 ts st heq
    split
    · -- missing_data: destroy the stack
      refine setC_Inv _ _ _ _ hInv ?_
      intro st' hveq
      exact absurd hveq (by simp)
    · -- item_analysis: append a copy of the last card
      split_ifs with hcond
      · split
        · rename_i c hlast
          refine setC_Inv _ _ _ _ hInv ?_
          intro st' hveq
          injection hveq with hveq
          subst hveq
          refine ⟨w1, ?_, ?_, ?_⟩
          · simp
          · simp only [List.length_append, List.length_singleton]
            omega
          · intro x hx
            rcases List.mem_append.mp hx with hx | hx
            · exact w4 x hx
            · rw [List.mem_singleton] at hx
              subst hx
              exact w4 x (mem_of_getLastQ hlast)
        · exact hInv
      · exact hInv
    · -- construct_drift: pop one card, or destroy a singleton stack
      split_ifs with hcond1 hcond2
      · refine setC_Inv _ _ _ _ hInv ?_
        intro st' hveq
        injection hveq with hveq
        subst hveq
        refine ⟨w1, ?_, ?_, ?_⟩
        · simp only [List.length_dropLast]
          omega
        · simp only [List.length_dropLast]
          omega
        · intro x hx
          exact w4 x (List.dropLast_subset _ hx)
      · refine setC_Inv _ _ _ _ hInv ?_
        intro st' hveq
        exact absurd hveq (by simp)
      · exact hInv
    · exact hInv

theorem applySpell_Inv (s1 : GameState) (pid tpid : Pl) (ow : Owner) (cid : SpellId)
    (tt : TType) (ts : ℕ) (hInv : Inv s1) : Inv (applySpell s1 pid tpid ow cid tt ts) := by
  cases tt
  · exact applySpellM_Inv s1 tpid ow cid ts hInv
  · exact applySpellC_Inv s1 tpid ow cid ts hInv

theorem applySummon_Inv (s : GameState) (pid : Pl) (ps os : ℕ) (rep : Option ℕ)
    (hInv : Inv s) : Inv (applySummon s pid ps os rep) := by
  simp only [applySummon]
  repeat' split
  all_goals first
    | exact hInv
    | (refine Inv_setPlayer _ _ _ hInv ⟨(hInv pid).1, (hInv pid).2.1, ?_⟩
       intro i st' hst'
       rcases get_set_cases _ _ _ _ _ hst' with ⟨-, -, hveq⟩ | hold
       · exact absurd hveq (by simp)
       · rcases get_set_cases _ _ _ _ _ hold with ⟨-, -, hveq⟩ | hold2
         · exact absurd hveq (by simp)
         · exact (hInv pid).2.2 i st' hold2)

theorem applyEndTurn_Inv (s : GameState) (pid : Pl) (hInv : Inv s) :
    Inv (applyEndTurn s pid) := by
  unfold applyEndTurn
  refine Inv_updatePlayer _ _ _ ?_ (fun hw => PlayerWF_congr _ _ rfl rfl rfl hw)
  refine Inv_updatePlayer _ _ _ ?_ (fun hw => ?_)
  · intro q
    rw [player_currentPlayer_set]
    exact (Inv_updatePlayer _ _ _ hInv (fun hw => PlayerWF_congr _ _ rfl rfl rfl hw)) q
  · exact PlayerWF_enforceHandLimit _
      (PlayerWF_drawCards _ _ _ (PlayerWF_congr _ _ rfl rfl rfl hw))

/-- Every legal transition preserves the state invariant. -/
theorem Inv_next (s : GameState) (a : Action) (hInv : Inv s) (hmem : a ∈ legal_actions s) :
    Inv (next_state s a) := by
  obtain ⟨ha, hcase⟩ := legal_cases s a hmem
  have hsf : ¬s.status = .finished := by rw [ha]; simp
  rcases hcase with ⟨hp, h', hlt, rfl⟩ | ⟨hple, hshape⟩
  · -- discard_card
    simp only [next_state, if_neg hsf]
    refine Inv_mark _ (Inv_updatePlayer _ _ _ hInv (fun hw => ?_))
    split_ifs
    all_goals exact ⟨fun c hcm => hw.1 c (List.eraseIdx_subset _ _ hcm), hw.2.1, hw.2.2⟩
  · rcases hshape with
        ⟨h', slot, cid, cat, nm, sh, r, hh', hslot, hc, hcond, rfl⟩ |
        ⟨h', ow, tt, ts, cid, hh', hts, hc, rfl⟩ |
        ⟨rfl, htok, hdeck⟩ |
        ⟨ps, os, rep, hps, hos, hrep, rfl⟩ |
        rfl |
        ⟨aslot, t, h3, ht, rfl⟩ |
        rfl
    · -- place_card
      simp only [next_state, if_neg hsf, hc]
      refine Inv_mark _ (Inv_updatePlayer _ _ _ hInv (fun hw => ?_))
      have hmemcard : Card.item cid cat nm sh r ∈ (s.player s.currentPlayer).hand :=
        List.getElem?_mem hc
      have hwf : cat = (CONSTRUCTS cid).cat := hw.1 _ hmemcard
      rcases hcond with hnone | ⟨st, hsome, hcid, hlen⟩
      · refine ⟨fun c hcm => hw.1 c (List.eraseIdx_subset _ _ hcm), hw.2.1, ?_⟩
        intro i st' hst'
        rw [hnone] at hst'
        rcases get_set_cases _ _ _ _ _ hst' with ⟨-, -, hveq⟩ | hold
        · injection hveq with hveq
          subst hveq
          refine ⟨hwf, by simp, by simp, ?_⟩
          intro c hcm
          rw [List.mem_singleton] at hcm
          subst hcm
          rfl
        · exact hw.2.2 i st' hold
      · refine ⟨fun c hcm => hw.1 c (List.eraseIdx_subset _ _ hcm), hw.2.1, ?_⟩
        intro i st' hst'
        rw [hsome] at hst'
        rcases get_set_cases _ _ _ _ _ hst' with ⟨-, -, hveq⟩ | hold
        · injection hveq with hveq
          subst hveq
          obtain ⟨w1, w2, w3, w4⟩ := hw.2.2 slot st hsome
          refine ⟨w1, by simp, ?_, ?_⟩
          · simp only [List.length_append, List.length_singleton]
            omega
          · intro c hcm
            rcases List.mem_append.mp hcm with hcm | hcm
            · exact w4 c hcm
            · rw [List.mem_singleton] at hcm
              subst hcm
              show some cid = some st.constructId
              rw [hcid]
        · exact hw.2.2 i st' hold
    · -- play_spell
      simp only [next_state, if_neg hsf, hc]
      refine Inv_mark _ (applySpell_Inv _ _ _ _ _ _ _ ?_)
      exact Inv_updatePlayer _ _ _ hInv
        (fun hw => ⟨fun c hcm => hw.1 c (List.eraseIdx_subset _ _ hcm), hw.2.1, hw.2.2⟩)
    · -- experience_draw
      simp only [next_state, if_neg hsf]
      exact Inv_mark _ (Inv_updatePlayer _ _ _ hInv (fun hw =>
        PlayerWF_enforceHandLimit _ (PlayerWF_drawCards _ _ _
          (PlayerWF_congr _ _ rfl rfl rfl hw))))
    · -- summon
      simp only [next_state, if_neg hsf]
      exact Inv_mark _ (applySummon_Inv _ _ _ _ _ hInv)
    · -- meta
      simp only [next_state, if_neg hsf]
      exact Inv_mark _ (Inv_of_sameHDC _ _ (applyMeta_sameHDC s _) hInv)
    · -- attack
      simp only [next_state, if_neg hsf]
      exact Inv_mark _ (Inv_of_sameHDC _ _ (applyAttack_sameHDC s _ aslot t) hInv)
    · -- end_turn
      simp only [next_state, if_neg hsf]
      exact Inv_mark _ (applyEndTurn_Inv _ _ hInv)

theorem Inv_reachable (S : GameState) (h : Reachable S) : Inv S := by
  induction h with
  | init => exact Inv_initial
  | step hr hmem ih => exact Inv_next _ _ ih hmem

/-- C5: in every state reachable from initial_state by legal actions,
every present construct stack of either player holds between 1 and 3
cards, all its cards are item cards carrying the stack's constructId,
and the stack's type equals that construct's category. -/
theorem reachable_stack_invariant (S : GameState) (h : Reachable S) : StackInvariant S := by
  intro q i st hget
  obtain ⟨h1, h2, h3, h4⟩ := (Inv_reachable S h q).2.2 i st hget
  exact ⟨h2, h3, h4, h1⟩

/-- Witness for C5: the invariant holds at the (trivially reachable)
initial state. -/
theorem reachable_stack_invariant_witness : StackInvariant initial_state :=
  reachable_stack_invariant initial_state Reachable.init

end PsyDuel
